import Mathlib

/-!
Verification development for the WCS-mosaicking and image-combination
subsystem of `eris_jhchen_utils.py` (functions `find_combined_wcs`,
`data_combine`, `compute_eris_offset`, `read_eris_drifts`,
`compute_weighting_eris`, `fill_mask`, `combine_eris_ifu`).

The Python code is shallowly embedded:

* An `astropy.wcs.WCS` object is modelled by the structure `WCSfits`.
  Since for a FITS WCS the pixel-to-world transform depends on the
  reference pixel `crpix` only through the difference `p - crpix`,
  the (possibly nonlinear) remainder of the transform is kept as the
  opaque function fields `fwd` (pixel-offset to world), `inv`
  (world to pixel-offset) and `fwdSky` (pixel-offset to celestial
  (ra, dec), modelling `pixel_to_skycoord` through the celestial
  sub-WCS).  `cd`/`pc` hold the optional spectral-axis diagonal terms
  `wcs.cd[-1,-1]` / `wcs.pc[-1,-1]` (an absent attribute is `none`).
* numpy arrays of rank 2/3 are nested lists of rationals (`NDA`);
  machine floats are modelled by `ℚ`.
* In-place mutation of the caller's WCS objects (the Python code does
  `image_wcs.wcs.crpix -= pixel_shifts[i]` on the very objects of
  `wcs_list`) is modelled by explicit state passing:
  `find_combined_wcs` returns, next to the combined WCS, the list of
  WCS objects as the caller observes them after the call.
* Exceptions (`ValueError`, `IndexError`, the `NameError` raised by
  the dangling `error_combined` in `data_combine`) are `Except.error`
  with the message of the source.
* External library collaborators that the combination code merely
  calls (`astropy.stats.sigma_clip`, the per-channel masked-median
  background term, `reproject_adaptive`) are opaque parameters
  gathered in `ExtLib`; everything the repository's own code computes
  is embedded concretely.
-/

/-- numpy's `np.round` (round half to even) on a rational, as used for
`np.round(...).astype(int)` in `find_combined_wcs`. -/
def npRound (q : ℚ) : ℤ :=
  let f : ℤ := q.num.fdiv q.den
  let r : ℚ := q - (f : ℚ)
  if r < 1/2 then f else if 1/2 < r then f + 1 else (if f % 2 = 0 then f else f + 1)

/-- Elementwise subtraction of coordinate vectors; entries of the first
list beyond the length of the second are kept (numpy broadcasting is
only exercised with equal lengths by the source). -/
def listSub : List ℚ → List ℚ → List ℚ
  | xs, [] => xs
  | [], _ => []
  | x :: xs, y :: ys => (x - y) :: listSub xs ys

/-- Elementwise addition of coordinate vectors, same convention as
`listSub`. -/
def listAdd : List ℚ → List ℚ → List ℚ
  | xs, [] => xs
  | [], _ => []
  | x :: xs, y :: ys => (x + y) :: listAdd xs ys

/-- Model of an `astropy.wcs.WCS`: reference pixel, reference world
coordinate, the optional spectral `cd`/`pc` diagonal terms, the array
shape (`[channel,] y, x` order), and the opaque crpix-independent parts
of the pixel/world transforms. -/
structure WCSfits where
  naxis : ℕ
  crpix : List ℚ
  crval : List ℚ
  cd : Option ℚ
  pc : Option ℚ
  array_shape : List ℕ
  fwd : List ℚ → List ℚ
  inv : List ℚ → List ℚ
  fwdSky : List ℚ → ℚ × ℚ

/-- `wcs.pixel_to_world` for pixel coordinate `p` (axis order x, y[, chan]). -/
def pixelToWorld (w : WCSfits) (p : List ℚ) : List ℚ :=
  w.fwd (listSub p w.crpix)

/-- `wcs.world_to_pixel`. -/
def worldToPixel (w : WCSfits) (s : List ℚ) : List ℚ :=
  listAdd (w.inv s) w.crpix

/-- `astropy.wcs.utils.pixel_to_pixel(w1, w2, *p)`: convert pixel
coordinates of `w1` to pixel coordinates of `w2` through world
coordinates.  The library raises when the number of supplied pixel
coordinates does not match the WCS dimensionality, modelled by the
arity guard. -/
def pixelToPixel (w1 w2 : WCSfits) (p : List ℚ) : Except String (List ℚ) :=
  if p.length = w1.naxis ∧ w1.naxis = w2.naxis then
    .ok (worldToPixel w2 (pixelToWorld w1 p))
  else
    .error "ValueError: pixel coordinates do not match WCS dimensionality"

/-- `astropy.wcs.utils.pixel_to_skycoord(x, y, wcs)`: the celestial
coordinate at pixel `(x, y)` through the celestial part of `wcs`. -/
def skyOf (w : WCSfits) (x y : ℚ) : ℚ × ℚ :=
  w.fwdSky (listSub [x, y] (w.crpix.take 2))

/-- The corner pixel indices of `find_combined_wcs` (lines 796-801):
`(0,0[,0])` and `np.array(first_shape)[::-1] - 1`.  Both are computed
from the FIRST image's shape only. -/
def cornerCoords (w0 : WCSfits) : List (List ℚ) :=
  [List.replicate w0.naxis 0, w0.array_shape.reverse.map (fun m : ℕ => (m : ℚ) - 1)]

/-- The inner loop `for pixel_coord in corner_pixel_coords` (lines
813-816): convert each corner coordinate of one WCS to frame-0 pixel
coordinates. -/
def convCorners (w w0 : WCSfits) : List (List ℚ) → Except String (List (List ℚ))
  | [] => .ok []
  | c :: cs =>
    match pixelToPixel w w0 c with
    | .error e => .error e
    | .ok r =>
      match convCorners w w0 cs with
      | .error e => .error e
      | .ok rs => .ok (r :: rs)

/-- The corner-collection loop of `find_combined_wcs` (lines 804-817):
for every WCS of the (already shift-adjusted) list, convert each corner
pixel coordinate to pixel coordinates of frame 0. -/
def collectCorners (ws : List WCSfits) (w0 : WCSfits) (ccs : List (List ℚ)) :
    Except String (List (List ℚ)) :=
  match ws with
  | [] => .ok []
  | w :: rest =>
    match convCorners w w0 ccs with
    | .error e => .error e
    | .ok cs =>
      match collectCorners rest w0 ccs with
      | .error e => .error e
      | .ok rs => .ok (cs ++ rs)

/-- Per-column fold over a list of coordinate rows (`np.min(corners,
axis=0)` when `f` is `min`, `np.max` when `f` is `max`). -/
def colFold (f : ℚ → ℚ → ℚ) : List (List ℚ) → List ℚ
  | [] => []
  | c :: cs => cs.foldl (List.zipWith f) c

/-- `ranges = np.round(up_boundaries - low_boundaries + 1).astype(int)`,
per axis in `[x, y[, chan]]` order. -/
def rangesOf (cs : List (List ℚ)) : List ℤ :=
  List.zipWith (fun u l => npRound (u - l + 1)) (colFold max cs) (colFold min cs)

/-- Output array shape: the ranges reversed into `[chan,] y, x` order. -/
def shapeOf (cs : List (List ℚ)) : List ℕ :=
  ((rangesOf cs).map Int.toNat).reverse

/-- `x0 = ranges[0] * 0.5`. -/
def centerX (cs : List (List ℚ)) : ℚ := ((rangesOf cs).getD 0 0 : ℚ) / 2

/-- `y0 = ranges[1] * 0.5`. -/
def centerY (cs : List (List ℚ)) : ℚ := ((rangesOf cs).getD 1 0 : ℚ) / 2

/-- `chan0 = low_boundaries[0]` (sic: the Python code takes index 0 of
the per-axis minima, i.e. the x axis minimum). -/
def chan0Of (cs : List (List ℚ)) : ℚ := (colFold min cs).getD 0 0

/-- The shift application of `find_combined_wcs` (line 810,
`image_wcs.wcs.crpix -= pixel_shifts[i]`), which mutates the WCS
objects of the caller's list in place; here produced as the post-call
state of that list. -/
def applyShifts (wl : List WCSfits) (s : List (List ℚ)) : List WCSfits :=
  List.zipWith (fun w si => { w with crpix := listSub w.crpix si }) wl s

/-- Core of `find_combined_wcs` operating on the (already
shift-adjusted) WCS list.  Returns the combined WCS together with the
post-call state of the caller's `wcs_list`.  The entry-0 WCS is read
through `first_wcs`, an alias of `wcs_list[0]`, whose crpix the loop
has already mutated before any corner is converted; hence all uses of
frame 0 below see the shifted entry 0. -/
def findCore (wl : List WCSfits) : Except String (WCSfits × List WCSfits) :=
  match wl with
  | [] => .error "IndexError: list index out of range"
  | w0 :: _ =>
    if w0.naxis = 2 ∨ w0.naxis = 3 then
      match collectCorners wl w0 (cornerCoords w0) with
      | .error e => .error e
      | .ok cs =>
        let x0 := centerX cs
        let y0 := centerY cs
        let sky := skyOf w0 x0 y0
        if w0.naxis = 3 then
          let dchanE : Except String ℚ :=
            match w0.cd with
            | some d => .ok d
            | none =>
              match w0.pc with
              | some d => .ok d
              | none => .error "Cannot read the step size of the spectral dimension!"
          match dchanE with
          | .error e => .error e
          | .ok dchan =>
            let refChan :=
              w0.crval.getLastD 0 + (w0.crpix.getLastD 0 - chan0Of cs - 1) * dchan
            .ok ({ w0 with
                    crval := [sky.1, sky.2, refChan],
                    crpix := [x0, y0, 1],
                    array_shape := shapeOf cs }, wl)
        else
          .ok ({ w0 with
                  crval := [sky.1, sky.2],
                  array_shape := shapeOf cs }, wl)
    else
      .error "Unsupport datacube! Check the dimentions of the datasets!"

/-- `find_combined_wcs(wcs_list=..., pixel_shifts=...)` (lines
751-865).  The second component of the result is the caller's
`wcs_list` as observed after the call (the source mutates the list's
objects in place when shifts are given). -/
def find_combined_wcs (wl : List WCSfits) (shifts : Option (List (List ℚ))) :
    Except String (WCSfits × List WCSfits) :=
  match shifts with
  | some s =>
    if s.length ≠ wl.length then
      .error "Pixel_shift does not match the number of images or WCSs!"
    else
      findCore (applyShifts wl s)
  | none => findCore wl

/-- A numpy array of rank 2 or 3 with float entries (dynamically
typed, as `data_combine` dispatches on `data.ndim`). -/
inductive NDA where
  | d2 : List (List ℚ) → NDA
  | d3 : List (List (List ℚ)) → NDA

/-- A numpy array of rank 2 or 3 with boolean entries (masks). -/
inductive NDAb where
  | b2 : List (List Bool) → NDAb
  | b3 : List (List (List Bool)) → NDAb

/-- Elementwise combination of two rank-2 blocks. -/
def zw2 (f : ℚ → ℚ → ℚ) (a b : List (List ℚ)) : List (List ℚ) :=
  List.zipWith (List.zipWith f) a b

/-- Elementwise combination of two rank-3 blocks. -/
def zw3 (f : ℚ → ℚ → ℚ) (a b : List (List (List ℚ))) : List (List (List ℚ)) :=
  List.zipWith (zw2 f) a b

/-- Elementwise combination of two arrays; on a rank mismatch (which
numpy would reject, and which the source never produces) the first
operand is returned. -/
def NDA.zipQ (f : ℚ → ℚ → ℚ) : NDA → NDA → NDA
  | .d2 a, .d2 b => .d2 (zw2 f a b)
  | .d3 a, .d3 b => .d3 (zw3 f a b)
  | a, _ => a

/-- Elementwise `+` on arrays. -/
def NDA.add : NDA → NDA → NDA := NDA.zipQ (· + ·)

/-- Elementwise `/` on arrays. -/
def NDA.div : NDA → NDA → NDA := NDA.zipQ (· / ·)

/-- Elementwise map over an array. -/
def NDA.map (f : ℚ → ℚ) : NDA → NDA
  | .d2 a => .d2 (a.map (fun r => r.map f))
  | .d3 a => .d3 (a.map (fun p => p.map (fun r => r.map f)))

/-- `array * weight`. -/
def NDA.scale (c : ℚ) : NDA → NDA := NDA.map (fun q => c * q)

/-- `1. - array` (line 1116). -/
def NDA.oneMinus : NDA → NDA := NDA.map (fun q => 1 - q)

/-- All entries of an array, flattened. -/
def NDA.entries : NDA → List ℚ
  | .d2 a => a.flatten
  | .d3 a => a.flatten.flatten

/-- `np.full(shape, fill_value=v)` for the shapes the source produces. -/
def mkFull (shape : List ℕ) (v : ℚ) : NDA :=
  match shape with
  | [a, b] => .d2 (List.replicate a (List.replicate b v))
  | [c, a, b] => .d3 (List.replicate c (List.replicate a (List.replicate b v)))
  | _ => .d2 []

/-- `np.full(data.shape, fill_value=False)` (line 1072). -/
def falseLike : NDA → NDAb
  | .d2 a => .b2 (a.map (fun r => r.map (fun _ => false)))
  | .d3 a => .b3 (a.map (fun p => p.map (fun r => r.map (fun _ => false))))

/-- A boolean mask viewed as a float array (reprojection of the mask). -/
def maskToQ : NDAb → NDA
  | .b2 a => .d2 (a.map (fun r => r.map (fun b => if b then 1 else 0)))
  | .b3 a => .d3 (a.map (fun p => p.map (fun r => r.map (fun b => if b then 1 else 0))))

/-- `np.ma.masked_array(data, mask=mask)`. -/
structure MaskedArr where
  data : NDA
  mask : NDAb

/-- `data_masked.filled(0)` (line 1103). -/
def filled0 (m : MaskedArr) : NDA :=
  match m.data, m.mask with
  | .d2 a, .b2 b => .d2 (List.zipWith (List.zipWith (fun x bb => if bb then 0 else x)) a b)
  | .d3 a, .b3 b =>
    .d3 (List.zipWith (List.zipWith (List.zipWith (fun x bb => if bb then 0 else x))) a b)
  | d, _ => d

/-- The channel-count reconciliation of `data_combine` (lines
1074-1089): truncate data and mask to the target channel count when the
cube is at least as long, otherwise extend both to the target count,
padding the data with `0.` and the mask with `False` planes of the
cube's own spatial shape. -/
def reconcileChannels (nchan : ℕ) (data : List (List (List ℚ)))
    (mask : List (List (List Bool))) :
    List (List (List ℚ)) × List (List (List Bool)) :=
  if nchan ≤ data.length then
    (data.take nchan, mask.take nchan)
  else
    let sy := (data.headD []).length
    let sx := ((data.headD []).headD []).length
    (data ++ List.replicate (nchan - data.length) (List.replicate sy (List.replicate sx (0 : ℚ))),
     mask ++ List.replicate (nchan - data.length) (List.replicate sy (List.replicate sx false)))

/-- `wcs.celestial`: the celestial sub-WCS (only its identity as an
argument to the opaque reprojection matters to the embedded code). -/
def celestial (w : WCSfits) : WCSfits :=
  { w with naxis := 2, crpix := w.crpix.take 2, crval := w.crval.take 2 }

/-- One per-exposure record of `data_combine`'s input: the `DATA`
array, the `DQI` mask, the WCS built from the header, and the header
fields read by `compute_weighting_eris` / `compute_eris_offset`. -/
structure Exposure where
  data : NDA
  mask : NDAb
  wcs : WCSfits
  exptime : ℚ
  raOff : ℚ
  decOff : ℚ
  cd11 : ℚ
  cd22 : ℚ
  arcfile : String

/-- The external library collaborators `data_combine` calls but does
not implement: `astropy.stats.sigma_clip`, the per-channel masked
median background subtraction expression, and `reproject_adaptive`
(the `Bool` is `conserve_flux`; the result is `(resampled, footprint)`
of the requested output shape). -/
structure ExtLib where
  sigmaClip : ℚ → MaskedArr → MaskedArr
  bgsub : MaskedArr → MaskedArr
  reproj : Bool → NDA → WCSfits → WCSfits → List ℕ → NDA × NDA

/-- The per-exposure pipeline of `data_combine`'s loop (lines
1065-1113): mask resolution, channel reconciliation, optional sigma
clipping, optional background subtraction, zero-filling of masked
pixels, and reprojection of data (flux-conserving) and mask (not) onto
the combined grid.  Returns `(data_reprojected, mask_reprojected)`. -/
def processExposure (ext : ExtLib) (maskExt sc : Bool) (sigma : ℚ) (bg : Bool)
    (shape : List ℕ) (wc iw0 : WCSfits) (e : Exposure) : NDA × NDA :=
  let iw := celestial iw0
  let data := e.data
  let mask := if maskExt then e.mask else falseLike data
  let dm :=
    match data, mask with
    | .d3 d, .b3 m =>
      let r := reconcileChannels (shape.headD 0) d m
      MaskedArr.mk (.d3 r.1) (.b3 r.2)
    | d, m => MaskedArr.mk d m
  let dm := if sc then ext.sigmaClip sigma dm else dm
  let dm := if bg then ext.bgsub dm else dm
  let dataF := filled0 dm
  let maskF := dm.mask
  let drep := (ext.reproj true dataF iw (celestial wc) shape).1
  let mrep := (ext.reproj false (maskToQ maskF) iw (celestial wc) shape).1
  (drep, mrep)

/-- One accumulation step (lines 1114-1116):
`data_combined += data_reprojected * weighting[i]` and
`coverage_combined += (1. - mask_reprojected)`. -/
def accumStep (ext : ExtLib) (maskExt sc : Bool) (sigma : ℚ) (bg : Bool)
    (shape : List ℕ) (wc : WCSfits) (acc : NDA × NDA)
    (t : WCSfits × Exposure × ℚ) : NDA × NDA :=
  let pr := processExposure ext maskExt sc sigma bg shape wc t.1 t.2.1
  (NDA.add acc.1 (NDA.scale t.2.2 pr.1), NDA.add acc.2 (NDA.oneMinus pr.2))

/-- The accumulation fold of `data_combine`: `data_combined` starts at
`np.full(shape, 0.)`, `coverage_combined` at `np.full(shape, 1e-8)`
(lines 1056-1057), then each exposure is processed and added. -/
def accumulate (ext : ExtLib) (maskExt sc : Bool) (sigma : ℚ) (bg : Bool)
    (shape : List ℕ) (wc : WCSfits) (ts : List (WCSfits × Exposure × ℚ)) :
    NDA × NDA :=
  ts.foldl (accumStep ext maskExt sc sigma bg shape wc)
    (mkFull shape 0, mkFull shape (1/100000000))

/-- Body of `data_combine` after the input validation: build
`wcs_list` (mock WCSs when `ignore_wcs`, else the per-image header
WCSs), derive the combined WCS, accumulate all exposures, divide by
coverage.  With a save path the header and combined array are emitted
(modelled as the `.ok` payload); without one the source executes
`return data_combined, error_combined` where `error_combined` is never
assigned, raising a `NameError`. -/
def dataCombineBody (ext : ExtLib) (imgs : List Exposure) (maskExt : Bool)
    (pixelShifts : Option (List (ℚ × ℚ))) (ignoreWcs sc : Bool) (sigma : ℚ)
    (bg : Bool) (weighting : Option (List ℚ)) (savefile : Option Unit) :
    Except String (WCSfits × NDA) :=
  let wcsListE : Except String (List WCSfits) :=
    if ignoreWcs then
      match imgs with
      | [] => .error "IndexError: list index out of range"
      | e0 :: _ =>
        match pixelShifts with
        | some s =>
          .ok (s.map (fun p => { e0.wcs with crpix := listAdd e0.wcs.crpix [p.1, p.2, 0] }))
        | none => .ok (List.replicate imgs.length e0.wcs)
    else
      .ok (imgs.map (fun e => e.wcs))
  match wcsListE with
  | .error e => .error e
  | .ok wcsList =>
    match find_combined_wcs wcsList none with
    | .error e => .error e
    | .ok (wc, _) =>
      let shape := wc.array_shape
      let weights :=
        match weighting with
        | none => List.replicate imgs.length ((1 : ℚ) / (imgs.length : ℚ))
        | some w => w
      let acc := accumulate ext maskExt sc sigma bg shape wc
        (wcsList.zip (imgs.zip weights))
      let final := NDA.div acc.1 acc.2
      match savefile with
      | some _ => .ok (wc, final)
      | none => .error "NameError: name error_combined is not defined"

/-- `data_combine(image_list, ...)` (lines 983-1140): validation of
`pixel_shifts` length first (lines 1009-1012), then the body. -/
def data_combine (ext : ExtLib) (imgs : List Exposure) (maskExt : Bool)
    (pixelShifts : Option (List (ℚ × ℚ))) (ignoreWcs sc : Bool) (sigma : ℚ)
    (bg : Bool) (weighting : Option (List ℚ)) (savefile : Option Unit) :
    Except String (WCSfits × NDA) :=
  match pixelShifts with
  | some s =>
    if s.length ≠ imgs.length then
      .error "Pixel_shift does not match the number of images!"
    else
      dataCombineBody ext imgs maskExt (some s) ignoreWcs sc sigma bg weighting savefile
  | none => dataCombineBody ext imgs maskExt none ignoreWcs sc sigma bg weighting savefile

/-- `compute_weighting_eris(image_list)` with the default
`mode='exptime'` (lines 889-903): per-image `EXPTIME` over the total. -/
def compute_weighting_eris (imgs : List Exposure) : List ℚ :=
  let total := (imgs.map (fun e => e.exptime)).sum
  imgs.map (fun e => e.exptime / total)

/-- One row of the eris drifting table: `(ARCFILE, x_model, y_model)`. -/
abbrev DriftTable := List (String × ℚ × ℚ)

/-- `read_eris_drifts(datfile, arcfilenames)` (lines 1205-1219): for
each archive name look the table up; exactly one matching row gives
`(x_model - 32, y_model - 32)`, otherwise the drift is `(0, 0)` and
"Drifts not found!" is printed (modelled as the warning list of the
second component). -/
def read_eris_drifts (tbl : DriftTable) (arcs : List String) :
    List (ℚ × ℚ) × List String :=
  (arcs.map (fun a =>
      match tbl.filter (fun r => r.1 = a) with
      | [r] => (r.2.1 - 32, r.2.2 - 32)
      | _ => ((0 : ℚ), (0 : ℚ))),
   (arcs.filter (fun a => (tbl.filter (fun r => r.1 = a)).length ≠ 1)).map
      (fun _ => "Drifts not found!"))

/-- The per-exposure OCS offsets of `compute_eris_offset` (lines
1244-1259): `(ra_offset - ra_offset_0) / abs(CD1_1*3600)` and the
declination analogue, using exposure i's own plate scale. -/
def pixelOffsetBase (imgs : List Exposure) : List (ℚ × ℚ) :=
  match imgs with
  | [] => []
  | e0 :: _ =>
    imgs.map (fun e =>
      ((e.raOff - e0.raOff) / |e.cd11 * 3600|,
       (e.decOff - e0.decOff) / |e.cd22 * 3600|))

/-- `compute_eris_offset(image_list, additional_drifts=...)` (lines
1221-1270).  `additional_drifts` is either a drift-table file
(`Sum.inl`, read through `read_eris_drifts`) or a literal per-exposure
pixel-shift array (`Sum.inr`); drifts are added to every entry,
including entry 0.  The second component collects the emitted
warnings. -/
def compute_eris_offset (imgs : List Exposure)
    (additionalDrifts : Option (DriftTable ⊕ List (ℚ × ℚ))) :
    List (ℚ × ℚ) × List String :=
  let base := pixelOffsetBase imgs
  match additionalDrifts with
  | none => (base, [])
  | some (.inl tbl) =>
    let r := read_eris_drifts tbl (imgs.map (fun e => e.arcfile))
    (List.zipWith (fun p d => (p.1 + d.1, p.2 + d.2)) base r.1, r.2)
  | some (.inr ds) =>
    (List.zipWith (fun p d => (p.1 + d.1, p.2 + d.2)) base ds, [])

/-- `combine_eris_ifu(image_list, drifts_file, outfile, **kwargs)`
(lines 1281-1286): weighting from exposure times, pixel shifts from
`compute_eris_offset`, then `data_combine` with its defaults
(`ignore_wcs=False` in particular). -/
def combine_eris_ifu (ext : ExtLib) (imgs : List Exposure)
    (driftsFile : Option DriftTable) (outfile : Option Unit)
    (maskExt sc : Bool) (sigma : ℚ) (bg : Bool) :
    Except String (WCSfits × NDA) :=
  data_combine ext imgs maskExt
    (some (compute_eris_offset imgs (driftsFile.map Sum.inl)).1)
    false sc sigma bg (some (compute_weighting_eris imgs)) outfile

/-- All index vectors of an n-dimensional array of the given shape, in
C (lexicographic) order. -/
def allPositions : List ℕ → List (List ℕ)
  | [] => [[]]
  | d :: ds => (List.range d).flatMap (fun i => (allPositions ds).map (i :: ·))

/-- Whether an index vector lies inside an array of the given shape. -/
def inBounds : List ℕ → List ℕ → Bool
  | [], [] => true
  | d :: ds, a :: as => a < d && inBounds ds as
  | _, _ => false

/-- The filling state of `fill_mask`: `none` is a NaN (still
unresolved) cell of `image_filled`. -/
def FillState := List ℕ → Option ℚ

/-- `image_filled` after `image_filled[mask==1] = np.nan`. -/
def initState (image : List ℕ → ℚ) (mask : List ℕ → Bool) : FillState :=
  fun p => if mask p then none else some (image p)

/-- `mask_idx = np.argwhere(mask > 0)`, in C order. -/
def maskIdx (mask : List ℕ → Bool) (shape : List ℕ) : List (List ℕ) :=
  (allPositions shape).filter (fun p => mask p)

/-- Chebyshev adjacency: every coordinate differs by at most one (the
radius-1 cubic neighbourhood, the center included, as the slice
`image_filled[i-1:i+2, ...]` clamped to the array). -/
def chebAdj (p q : List ℕ) : Bool :=
  p.length = q.length && (List.zip p q).all (fun t => t.1 ≤ t.2 + 1 && t.2 ≤ t.1 + 1)

/-- The in-bounds radius-1 cubic neighbourhood of `idx` (the numpy
slice clamps at both array boundaries), in C order. -/
def nbhd (shape : List ℕ) (idx : List ℕ) : List (List ℕ) :=
  (allPositions shape).filter (fun q => chebAdj idx q)

/-- Median of a list of rationals, with numpy's mean-of-two-middles
convention for even lengths. -/
def medianQ (l : List ℚ) : ℚ :=
  let s := l.insertionSort (· ≤ ·)
  let n := s.length
  if n % 2 = 1 then s.getD (n / 2) 0 else (s.getD (n / 2 - 1) 0 + s.getD (n / 2) 0) / 2

/-- `np.nanmedian(image_filled[ss])`: the median of the non-NaN values
of the neighbourhood, or NaN (`none`) if there are none. -/
def nanmedianAt (st : FillState) (shape : List ℕ) (idx : List ℕ) : Option ℚ :=
  let vals := (nbhd shape idx).filterMap st
  if vals.isEmpty then none else some (medianQ vals)

/-- Point update of the filling state. -/
def updateCell (st : FillState) (idx : List ℕ) (v : Option ℚ) : FillState :=
  fun q => if q = idx then v else st q

/-- One pass of the `while` loop of `fill_mask` (lines 921-931): every
masked index is set, in order, to the nanmedian of its clamped
neighbourhood in the current state. -/
def onePass (shape : List ℕ) (midx : List (List ℕ)) (st : FillState) : FillState :=
  midx.foldl (fun s idx => updateCell s idx (nanmedianAt s shape idx)) st

/-- Whether any NaN remains (`np.any(np.isnan(image_filled))`, negated). -/
def allFilled (shape : List ℕ) (st : FillState) : Bool :=
  (allPositions shape).all (fun p => (st p).isSome)

/-- The `while np.any(np.isnan(image_filled))` loop, with explicit
fuel: `none` models non-termination of the source loop within the
given number of passes (the loop as written has no bound; the theorems
show the fuel used by `fill_mask` always suffices once one cell is
unmasked). -/
def fillLoop (shape : List ℕ) (midx : List (List ℕ)) :
    ℕ → FillState → Option FillState
  | 0, st => if allFilled shape st then some st else none
  | f + 1, st =>
    if allFilled shape st then some st
    else fillLoop shape midx f (onePass shape midx st)

/-- `fill_mask(image, mask)` (lines 905-932) for an array of the given
shape: iterated neighbourhood-median filling of all masked cells.  The
input arrays are read only (`image_filled = image.copy()`); the result
is the final state of the copy. -/
def fill_mask (image : List ℕ → ℚ) (mask : List ℕ → Bool) (shape : List ℕ) :
    Option FillState :=
  fillLoop shape (maskIdx mask shape) (allPositions shape).length
    (initState image mask)

/-- Arity of the corner pixel coordinates: both corner index vectors
have the first WCS's dimensionality (given a well-formed shape). -/
lemma cornerCoords_length (w0 : WCSfits) (hshape : w0.array_shape.length = w0.naxis) :
    ∀ c ∈ cornerCoords w0, c.length = w0.naxis := by
  intro c hc
  simp only [cornerCoords, List.mem_cons, List.not_mem_nil, or_false] at hc
  rcases hc with h | h
  · subst h; exact List.length_replicate _ _
  · subst h; rw [List.length_map, List.length_reverse, hshape]

/-- `convCorners` succeeds on corner coordinates of matching arity and
returns one converted coordinate per corner. -/
lemma convCorners_ok (w w0 : WCSfits) (hn : w.naxis = w0.naxis) :
    ∀ ccs, (∀ c ∈ ccs, c.length = w.naxis) →
    ∃ l, convCorners w w0 ccs = .ok l ∧ l.length = ccs.length ∧
      ∀ c ∈ ccs, ∃ r, pixelToPixel w w0 c = .ok r ∧ r ∈ l := by
  intro ccs
  induction ccs with
  | nil => intro _; exact ⟨[], rfl, rfl, by simp⟩
  | cons c cs ih =>
    intro h
    have hc : c.length = w.naxis := h c (by simp)
    have hok : pixelToPixel w w0 c = .ok (worldToPixel w0 (pixelToWorld w c)) := by
      simp [pixelToPixel, hc, hn]
    obtain ⟨l, hl, hlen, hmem⟩ := ih (fun c' hc' => h c' (by simp [hc']))
    refine ⟨worldToPixel w0 (pixelToWorld w c) :: l, ?_, by simp [hlen], ?_⟩
    · simp [convCorners, hok, hl]
    · intro c' hc'
      rcases List.mem_cons.mp hc' with h' | h'
      · subst h'; exact ⟨_, hok, by simp⟩
      · obtain ⟨r, hr, hrl⟩ := hmem c' h'
        exact ⟨r, hr, by simp [hrl]⟩

/-- `collectCorners` succeeds when every WCS has the first one's
dimensionality, collects `2·n` coordinates (two per exposure), and the
collected list contains, for every exposure of the list, the frame-0
conversion of every corner coordinate. -/
lemma collectCorners_ok (w0 : WCSfits) (ccs : List (List ℚ))
    (hc : ∀ c ∈ ccs, c.length = w0.naxis) :
    ∀ ws, (∀ w ∈ ws, w.naxis = w0.naxis) →
    ∃ cs, collectCorners ws w0 ccs = .ok cs ∧ cs.length = ws.length * ccs.length ∧
      ∀ w ∈ ws, ∀ c ∈ ccs, ∃ r, pixelToPixel w w0 c = .ok r ∧ r ∈ cs := by
  intro ws
  induction ws with
  | nil => intro _; exact ⟨[], rfl, by simp, by simp⟩
  | cons w rest ih =>
    intro h
    have hw : w.naxis = w0.naxis := h w (by simp)
    obtain ⟨l, hl, hlen, hmem⟩ :=
      convCorners_ok w w0 hw ccs (fun c hc' => (hc c hc').trans hw.symm)
    obtain ⟨cs, hcs, hcslen, hcsm⟩ := ih (fun w' hw' => h w' (by simp [hw']))
    refine ⟨l ++ cs, ?_, ?_, ?_⟩
    · simp [collectCorners, hl, hcs]
    · simp [hlen, hcslen, Nat.succ_mul, Nat.add_comm]
    · intro w' hw' c hc'
      rcases List.mem_cons.mp hw' with h' | h'
      · subst h'
        obtain ⟨r, hr, hrl⟩ := hmem c hc'
        exact ⟨r, hr, by simp [hrl]⟩
      · obtain ⟨r, hr, hrl⟩ := hcsm w' h' c hc'
        exact ⟨r, hr, by simp [hrl]⟩

/-- Whenever `findCore` succeeds, the second component of its result
(the caller's `wcs_list` after the call) is exactly its input list. -/
lemma findCore_map_snd (wl : List WCSfits) :
    (findCore wl).map (fun r => r.2) = (findCore wl).map (fun _ => wl) := by
  cases wl with
  | nil => rfl
  | cons w0 rest =>
    simp only [findCore]
    split <;> try rfl
    all_goals (split <;> try rfl)
    all_goals (split <;> try rfl)
    all_goals (split <;> try rfl)

/-- `np.round` of an integral value is that value. -/
lemma npRound_intCast (z : ℤ) : npRound ((z : ℤ) : ℚ) = z := by
  unfold npRound
  rw [Rat.num_intCast, Rat.den_intCast]
  norm_num [Int.fdiv_one]

/-- A mismatching dimensionality makes the very first corner conversion
fail (the first corner has frame 0's arity). -/
lemma convCorners_error_of_naxis_ne (w w0 : WCSfits) (h : w.naxis ≠ w0.naxis) :
    ∃ e, convCorners w w0 (cornerCoords w0) = .error e := by
  have hcond : ¬(w0.naxis = w.naxis ∧ w.naxis = w0.naxis) := fun hh => h hh.2
  exact ⟨"ValueError: pixel coordinates do not match WCS dimensionality",
    by simp [cornerCoords, convCorners, pixelToPixel, hcond]⟩

/-- If any WCS of the list disagrees with frame 0's dimensionality, the
corner collection raises. -/
lemma collectCorners_error (w0 : WCSfits) :
    ∀ ws, (∃ w ∈ ws, w.naxis ≠ w0.naxis) →
    ∃ e, collectCorners ws w0 (cornerCoords w0) = .error e := by
  intro ws
  induction ws with
  | nil => rintro ⟨w, hw, _⟩; cases hw
  | cons w rest ih =>
    rintro ⟨w', hw', hne⟩
    rcases List.mem_cons.mp hw' with h | h
    · subst h
      obtain ⟨e, he⟩ := convCorners_error_of_naxis_ne w' w0 hne
      exact ⟨e, by simp [collectCorners, he]⟩
    · rcases hconv : convCorners w w0 (cornerCoords w0) with e | l
      · exact ⟨e, by simp [collectCorners, hconv]⟩
      · obtain ⟨e, he⟩ := ih ⟨w', h, hne⟩
        exact ⟨e, by simp [collectCorners, hconv, he]⟩

/-- Entry `i` of the post-call state of the caller's list: the WCS with
its reference pixel decreased by shift `i`. -/
lemma applyShifts_getElem? :
    ∀ (wl : List WCSfits) (s : List (List ℚ)) (i : ℕ) (hi : i < wl.length)
      (hs : i < s.length),
    (applyShifts wl s)[i]? =
      some { wl.get ⟨i, hi⟩ with
              crpix := listSub (wl.get ⟨i, hi⟩).crpix (s.get ⟨i, hs⟩) } := by
  intro wl
  induction wl with
  | nil => intro s i hi _; cases (Nat.not_lt_zero i) hi
  | cons w ws ih =>
    intro s i hi hs
    cases s with
    | nil => cases (Nat.not_lt_zero i) hs
    | cons si ss =>
      cases i with
      | zero => simp [applyShifts]
      | succ j =>
        have hj : j < ws.length := Nat.lt_of_succ_lt_succ hi
        have hj' : j < ss.length := Nat.lt_of_succ_lt_succ hs
        simpa [applyShifts] using ih ss j hj hj'

/-- The identity pixel-offset transform used by the concrete example
WCSs. -/
def idF : List ℚ → List ℚ := fun v => v

/-- The first two components, as the celestial transform of the
concrete example WCSs. -/
def idSky : List ℚ → ℚ × ℚ := fun v => (v.getD 0 0, v.getD 1 0)

/-- Concrete WCS builder for the examples. -/
def mkWcs (n : ℕ) (crpix crval : List ℚ) (cdv pcv : Option ℚ) (shape : List ℕ) :
    WCSfits :=
  ⟨n, crpix, crval, cdv, pcv, shape, idF, idF, idSky⟩

/-- A 2-D WCS with a 3×3 pixel grid. -/
def wA : WCSfits := mkWcs 2 [0, 0] [0, 0] none none [3, 3]

/-- A 2-D WCS with a 5×5 pixel grid (larger than `wA`). -/
def wB : WCSfits := mkWcs 2 [0, 0] [0, 0] none none [5, 5]

/-- A 2-D WCS with reference pixel (1,1), off the grid center. -/
def wC : WCSfits := mkWcs 2 [1, 1] [0, 0] none none [4, 4]

/-- A 3-D WCS with a CD spectral step. -/
def w3 : WCSfits := mkWcs 3 [1, 1, 1] [5, 6, 7] (some 2) none [2, 3, 4]

/-- A 1-D WCS (unsupported dimensionality). -/
def w1D : WCSfits := mkWcs 1 [0] [0] none none [4]

/-- A 3-D WCS with neither a CD nor a PC spectral step term. -/
def w3nost : WCSfits := mkWcs 3 [1, 1, 1] [0, 0, 0] none none [2, 2, 2]

/-- The trivial instantiation of the external collaborators, used by
the concrete examples: sigma clipping and background subtraction do
nothing, reprojection returns zero arrays of the output shape. -/
def trivialExt : ExtLib :=
  ⟨fun _ m => m, fun m => m, fun _ _ _ _ shape => (mkFull shape 0, mkFull shape 0)⟩

/-- `np.round` of a natural value is that value. -/
lemma npRound_natCast (n : ℕ) : npRound ((n : ℕ) : ℚ) = (n : ℤ) := by
  have := npRound_intCast (n : ℤ)
  rwa [Int.cast_natCast] at this

/-- `np.round 1 = 1`. -/
lemma npRound_one : npRound (1 : ℚ) = 1 := by simpa using npRound_natCast 1

/-- `np.round 3 = 3`. -/
lemma npRound_three : npRound (3 : ℚ) = 3 := by simpa using npRound_natCast 3

/-- `np.round 4 = 4`. -/
lemma npRound_four : npRound (4 : ℚ) = 4 := by simpa using npRound_natCast 4

/-- C1 (amended): for a non-empty list of 2-D or 3-D mappings sharing
frame 0's dimensionality, the combined grid's shape is the rounded
per-axis extents `round(max - min + 1)` of the collected frame-0
corner coordinates, reversed into `([chan,] y, x)` order; its reference
world coordinate is frame 0's sky coordinate at the center pixel
`(x_extent/2, y_extent/2)`; and its reference pixel is
`(x_extent/2, y_extent/2, 1)` for 3-D mappings, while for 2-D mappings
the reference pixel is inherited unchanged from frame 0 (the code
updates `crpix` only on the 3-D branch). -/
theorem spec_C1_thm (w0 : WCSfits) (rest : List WCSfits)
    (hnx : w0.naxis = 2 ∨ w0.naxis = 3)
    (hall : ∀ w ∈ w0 :: rest, w.naxis = w0.naxis)
    (hshape : w0.array_shape.length = w0.naxis)
    (hstep : w0.naxis = 3 → ¬(w0.cd = none ∧ w0.pc = none)) :
    ∃ cs wc, collectCorners (w0 :: rest) w0 (cornerCoords w0) = .ok cs ∧
      find_combined_wcs (w0 :: rest) none = .ok (wc, w0 :: rest) ∧
      wc.array_shape = shapeOf cs ∧
      wc.crval.take 2 =
        [(skyOf w0 (centerX cs) (centerY cs)).1, (skyOf w0 (centerX cs) (centerY cs)).2] ∧
      (w0.naxis = 3 → wc.crpix = [centerX cs, centerY cs, 1]) ∧
      (w0.naxis = 2 → wc.crpix = w0.crpix) := by
  obtain ⟨cs, hcs, -, -⟩ :=
    collectCorners_ok w0 (cornerCoords w0) (cornerCoords_length w0 hshape) (w0 :: rest) hall
  rcases hnx with h2 | h3
  · refine ⟨cs, { w0 with
        crval := [(skyOf w0 (centerX cs) (centerY cs)).1,
                  (skyOf w0 (centerX cs) (centerY cs)).2],
        array_shape := shapeOf cs }, hcs, ?_, rfl, by simp, ?_, fun _ => rfl⟩
    · simp only [find_combined_wcs, findCore, hcs]
      rw [if_pos (Or.inl h2), if_neg (by rw [h2]; decide)]
    · intro h; rw [h2] at h; exact absurd h (by decide)
  · rcases hcd : w0.cd with _ | d
    · rcases hpc : w0.pc with _ | d
      · exact absurd ⟨hcd, hpc⟩ (hstep h3)
      · refine ⟨cs, { w0 with
            crval := [(skyOf w0 (centerX cs) (centerY cs)).1,
                      (skyOf w0 (centerX cs) (centerY cs)).2,
                      w0.crval.getLastD 0 + (w0.crpix.getLastD 0 - chan0Of cs - 1) * d],
            crpix := [centerX cs, centerY cs, 1],
            array_shape := shapeOf cs }, hcs, ?_, rfl, by simp, fun _ => rfl, ?_⟩
        · simp only [find_combined_wcs, findCore, hcs]
          rw [if_pos (Or.inr h3), if_pos h3]
          simp [hcd, hpc]
        · intro h; rw [h3] at h; exact absurd h (by decide)
    · refine ⟨cs, { w0 with
          crval := [(skyOf w0 (centerX cs) (centerY cs)).1,
                    (skyOf w0 (centerX cs) (centerY cs)).2,
                    w0.crval.getLastD 0 + (w0.crpix.getLastD 0 - chan0Of cs - 1) * d],
          crpix := [centerX cs, centerY cs, 1],
          array_shape := shapeOf cs }, hcs, ?_, rfl, by simp, fun _ => rfl, ?_⟩
      · simp only [find_combined_wcs, findCore, hcs]
        rw [if_pos (Or.inr h3), if_pos h3]
        simp [hcd]
      · intro h; rw [h3] at h; exact absurd h (by decide)

/-- Witness for C1 at the concrete 3-D mapping `w3`. -/
theorem spec_C1_wit :
    ∃ cs wc, collectCorners [w3] w3 (cornerCoords w3) = .ok cs ∧
      find_combined_wcs [w3] none = .ok (wc, [w3]) ∧
      wc.array_shape = shapeOf cs ∧
      wc.crval.take 2 =
        [(skyOf w3 (centerX cs) (centerY cs)).1, (skyOf w3 (centerX cs) (centerY cs)).2] ∧
      (w3.naxis = 3 → wc.crpix = [centerX cs, centerY cs, 1]) ∧
      (w3.naxis = 2 → wc.crpix = w3.crpix) :=
  spec_C1_thm w3 [] (Or.inr rfl)
    (by intro w hw; rw [List.mem_singleton] at hw; subst hw; rfl)
    rfl
    (fun _ hx => Option.noConfusion hx.1)

/-- C1 counterexample to the claim as stated: for the 2-D mapping `wC`
(grid 4×4, reference pixel (1,1)) the combined grid has x/y extents
4×4, but its reference pixel is the inherited (1,1), not
`(x_extent/2, y_extent/2) = (2,2)`. -/
theorem spec_C1_cex :
    (find_combined_wcs [wC] none).map (fun r => (r.1.array_shape, r.1.crpix)) =
      .ok ([4, 4], [1, 1]) ∧ ([(1 : ℚ), 1] ≠ [(2 : ℚ), 2]) := by
  constructor
  · have h1 : pixelToPixel wC wC [0, 0] = .ok [0, 0] := by
      norm_num [pixelToPixel, worldToPixel, pixelToWorld, wC, mkWcs, idF, listSub, listAdd]
    have h2 : pixelToPixel wC wC [3, 3] = .ok [3, 3] := by
      norm_num [pixelToPixel, worldToPixel, pixelToWorld, wC, mkWcs, idF, listSub, listAdd]
    have hcc : cornerCoords wC = [[0, 0], [3, 3]] := by
      norm_num [cornerCoords, wC, mkWcs, List.replicate]
    have hcol : collectCorners [wC] wC (cornerCoords wC) = .ok [[0, 0], [3, 3]] := by
      rw [hcc]
      simp [collectCorners, convCorners, h1, h2, hcc]
    have hsh : shapeOf [[0, 0], [3, 3]] = [4, 4] := by
      norm_num [shapeOf, rangesOf, colFold, List.zipWith, max_def, min_def, npRound_four]
      decide
    simp only [find_combined_wcs, findCore, hcol]
    rw [if_pos (Or.inl (show wC.naxis = 2 from rfl)), if_neg (show ¬wC.naxis = 3 by decide)]
    simp [hsh, wC, mkWcs, Except.map]
  · norm_num

/-- C2 (amended): the solver collects `2·n` frame-0 corner
coordinates: for EVERY exposure of the list, the conversions of
exposure 0's two extreme corner indices (`(0,0[,0])` and exposure 0's
shape minus one per axis) — not each exposure's own corners. -/
theorem spec_C2_thm (w0 : WCSfits) (rest : List WCSfits)
    (hall : ∀ w ∈ w0 :: rest, w.naxis = w0.naxis)
    (hshape : w0.array_shape.length = w0.naxis) :
    ∃ cs, collectCorners (w0 :: rest) w0 (cornerCoords w0) = .ok cs ∧
      cs.length = 2 * (w0 :: rest).length ∧
      ∀ w ∈ w0 :: rest, ∀ c ∈ cornerCoords w0,
        ∃ r, pixelToPixel w w0 c = .ok r ∧ r ∈ cs := by
  obtain ⟨cs, h1, h2, h3⟩ :=
    collectCorners_ok w0 (cornerCoords w0) (cornerCoords_length w0 hshape) (w0 :: rest) hall
  refine ⟨cs, h1, ?_, h3⟩
  have hl : (cornerCoords w0).length = 2 := rfl
  rw [h2, hl, Nat.mul_comm]

/-- Witness for C2 at the concrete pair `[wA, wB]`. -/
theorem spec_C2_wit :
    ∃ cs, collectCorners [wA, wB] wA (cornerCoords wA) = .ok cs ∧
      cs.length = 2 * [wA, wB].length ∧
      ∀ w ∈ [wA, wB], ∀ c ∈ cornerCoords wA,
        ∃ r, pixelToPixel w wA c = .ok r ∧ r ∈ cs :=
  spec_C2_thm wA [wB]
    (by intro w hw; rcases List.mem_cons.mp hw with h | h
        · subst h; rfl
        · rw [List.mem_singleton] at h; subst h; rfl)
    rfl

/-- C2 counterexample to the claim as stated: with exposure 0 a 3×3
grid and exposure 1 a 5×5 grid, the collected corners are the
conversions of exposure 0's indices (0,0) and (2,2) for both
exposures; exposure 1's own far corner (4,4) (which converts to frame-0
pixel (4,4)) is NOT collected, and the combined shape stays [3,3]
instead of covering it. -/
theorem spec_C2_cex :
    collectCorners [wA, wB] wA (cornerCoords wA) = .ok [[0, 0], [2, 2], [0, 0], [2, 2]] ∧
    pixelToPixel wB wA [4, 4] = .ok [4, 4] ∧
    ([(4 : ℚ), 4] ∉ ([[(0 : ℚ), 0], [2, 2], [0, 0], [2, 2]] : List (List ℚ))) ∧
    (find_combined_wcs [wA, wB] none).map (fun r => r.1.array_shape) = .ok [3, 3] := by
  have hcc : cornerCoords wA = [[0, 0], [2, 2]] := by
    norm_num [cornerCoords, wA, mkWcs, List.replicate]
  have hA0 : pixelToPixel wA wA [0, 0] = .ok [0, 0] := by
    norm_num [pixelToPixel, worldToPixel, pixelToWorld, wA, mkWcs, idF, listSub, listAdd]
  have hA2 : pixelToPixel wA wA [2, 2] = .ok [2, 2] := by
    norm_num [pixelToPixel, worldToPixel, pixelToWorld, wA, mkWcs, idF, listSub, listAdd]
  have hB0 : pixelToPixel wB wA [0, 0] = .ok [0, 0] := by
    norm_num [pixelToPixel, worldToPixel, pixelToWorld, wA, wB, mkWcs, idF, listSub, listAdd]
  have hB2 : pixelToPixel wB wA [2, 2] = .ok [2, 2] := by
    norm_num [pixelToPixel, worldToPixel, pixelToWorld, wA, wB, mkWcs, idF, listSub, listAdd]
  have hcol : collectCorners [wA, wB] wA (cornerCoords wA) =
      .ok [[0, 0], [2, 2], [0, 0], [2, 2]] := by
    rw [hcc]
    simp [collectCorners, convCorners, hA0, hA2, hB0, hB2]
  refine ⟨hcol, ?_, by norm_num, ?_⟩
  · norm_num [pixelToPixel, worldToPixel, pixelToWorld, wA, wB, mkWcs, idF, listSub, listAdd]
  · have hsh : shapeOf [[0, 0], [2, 2], [0, 0], [2, 2]] = [3, 3] := by
      norm_num [shapeOf, rangesOf, colFold, List.zipWith, max_def, min_def, npRound_three]
      decide
    simp only [find_combined_wcs, findCore, hcol]
    rw [if_pos (Or.inl (show wA.naxis = 2 from rfl)), if_neg (show ¬wA.naxis = 3 by decide)]
    simp [hsh, Except.map]

/-- A WCS equal to `wC` but with the reference pixel already shifted by
(1,0). -/
def wCs : WCSfits := { wC with crpix := [0, 1] }

/-- C3 (amended): when pixel shifts are given, the caller's mappings
ARE mutated: after a successful call the caller's `wcs_list` holds, at
every index `i`, its original mapping with the reference pixel
decreased in place by shift `i` (no copy is taken; cf. the design note
of the spec acknowledging the in-place mutation). -/
theorem spec_C3_thm (wl : List WCSfits) (s : List (List ℚ)) (hlen : s.length = wl.length) :
    (find_combined_wcs wl (some s)).map (fun r => r.2) =
      (find_combined_wcs wl (some s)).map (fun _ => applyShifts wl s) ∧
    ∀ (i : ℕ) (hi : i < wl.length) (hs : i < s.length),
      (applyShifts wl s)[i]? =
        some { wl.get ⟨i, hi⟩ with
                crpix := listSub (wl.get ⟨i, hi⟩).crpix (s.get ⟨i, hs⟩) } := by
  constructor
  · simp only [find_combined_wcs]
    rw [if_neg (not_ne_iff.mpr hlen)]
    exact findCore_map_snd (applyShifts wl s)
  · intro i hi hs
    exact applyShifts_getElem? wl s i hi hs

/-- Witness for C3 at the concrete input `[wC]` with shift `[(1,0)]`. -/
theorem spec_C3_wit :
    (find_combined_wcs [wC] (some [[1, 0]])).map (fun r => r.2) =
      (find_combined_wcs [wC] (some [[1, 0]])).map (fun _ => applyShifts [wC] [[1, 0]]) ∧
    ∀ (i : ℕ) (hi : i < [wC].length) (hs : i < [[(1 : ℚ), 0]].length),
      (applyShifts [wC] [[1, 0]])[i]? =
        some { [wC].get ⟨i, hi⟩ with
                crpix := listSub ([wC].get ⟨i, hi⟩).crpix ([[(1 : ℚ), 0]].get ⟨i, hs⟩) } :=
  spec_C3_thm [wC] [[1, 0]] rfl

/-- C3 counterexample to the claim as stated: after
`find_combined_wcs([wC], pixel_shifts=[(1,0)])` the caller's list holds
a mapping with reference pixel (0,1) — the original (1,1) was mutated,
not preserved. -/
theorem spec_C3_cex :
    (find_combined_wcs [wC] (some [[1, 0]])).map (fun r => r.2.map (fun w => w.crpix)) =
      .ok [[0, 1]] ∧
    [wC].map (fun w => w.crpix) = [[1, 1]] ∧
    ([[(0 : ℚ), 1]] : List (List ℚ)) ≠ [[(1 : ℚ), 1]] := by
  have happ : applyShifts [wC] [[1, 0]] = [wCs] := by
    norm_num [applyShifts, wCs, wC, mkWcs, listSub]
  have h1 : pixelToPixel wCs wCs [0, 0] = .ok [0, 0] := by
    norm_num [pixelToPixel, worldToPixel, pixelToWorld, wCs, wC, mkWcs, idF, listSub, listAdd]
  have h2 : pixelToPixel wCs wCs [3, 3] = .ok [3, 3] := by
    norm_num [pixelToPixel, worldToPixel, pixelToWorld, wCs, wC, mkWcs, idF, listSub, listAdd]
  have hcc : cornerCoords wCs = [[0, 0], [3, 3]] := by
    norm_num [cornerCoords, wCs, wC, mkWcs, List.replicate]
  have hcol : collectCorners [wCs] wCs (cornerCoords wCs) = .ok [[0, 0], [3, 3]] := by
    rw [hcc]
    simp [collectCorners, convCorners, h1, h2]
  refine ⟨?_, by norm_num [wC, mkWcs], by norm_num⟩
  simp only [find_combined_wcs]
  rw [if_neg (by norm_num), happ]
  simp only [findCore, hcol]
  rw [if_pos (Or.inl (show wCs.naxis = 2 from rfl)), if_neg (show ¬wCs.naxis = 3 by decide)]
  simp [Except.map, wCs, wC, mkWcs]

/-- C7: each validation failure — a shift list whose length mismatches
the exposure count (in `find_combined_wcs` and in `data_combine`), a
mapping of unsupported dimensionality (frame 0 by the explicit check,
any other exposure by the conversion arity), and a 3-D frame-0 mapping
with neither a CD nor a PC spectral step — produces the descriptive
error of the source, before any reprojection or accumulation is
attempted, and no combined output is produced (`data_combine`
propagates the solver's error unchanged). -/
theorem spec_C7_thm :
    (∀ (wl : List WCSfits) (s : List (List ℚ)), s.length ≠ wl.length →
      find_combined_wcs wl (some s) =
        .error "Pixel_shift does not match the number of images or WCSs!") ∧
    (∀ (w0 : WCSfits) (rest : List WCSfits), ¬(w0.naxis = 2 ∨ w0.naxis = 3) →
      find_combined_wcs (w0 :: rest) none =
        .error "Unsupport datacube! Check the dimentions of the datasets!") ∧
    (∀ (w0 : WCSfits) (rest : List WCSfits) (w : WCSfits), w ∈ w0 :: rest →
      (w0.naxis = 2 ∨ w0.naxis = 3) → w.naxis ≠ w0.naxis →
      ∃ e, find_combined_wcs (w0 :: rest) none = .error e) ∧
    (∀ (w0 : WCSfits) (rest : List WCSfits), w0.naxis = 3 → w0.cd = none → w0.pc = none →
      (∀ w ∈ w0 :: rest, w.naxis = w0.naxis) → w0.array_shape.length = w0.naxis →
      find_combined_wcs (w0 :: rest) none =
        .error "Cannot read the step size of the spectral dimension!") ∧
    (∀ (ext : ExtLib) (imgs : List Exposure) (maskExt : Bool) (s : List (ℚ × ℚ))
       (iw sc : Bool) (sigma : ℚ) (bg : Bool) (wt : Option (List ℚ)) (sv : Option Unit),
      s.length ≠ imgs.length →
      data_combine ext imgs maskExt (some s) iw sc sigma bg wt sv =
        .error "Pixel_shift does not match the number of images!") ∧
    (∀ (ext : ExtLib) (imgs : List Exposure) (maskExt sc : Bool) (sigma : ℚ) (bg : Bool)
       (wt : Option (List ℚ)) (sv : Option Unit) (e : String),
      find_combined_wcs (imgs.map (fun x => x.wcs)) none = .error e →
      data_combine ext imgs maskExt none false sc sigma bg wt sv = .error e) := by
  refine ⟨?_, ?_, ?_, ?_, ?_, ?_⟩
  · intro wl s h
    simp only [find_combined_wcs]
    rw [if_pos h]
  · intro w0 rest h
    simp only [find_combined_wcs, findCore]
    rw [if_neg h]
  · intro w0 rest w hw hnx hne
    obtain ⟨e, he⟩ := collectCorners_error w0 (w0 :: rest) ⟨w, hw, hne⟩
    refine ⟨e, ?_⟩
    simp only [find_combined_wcs, findCore]
    rw [if_pos hnx]
    simp [he]
  · intro w0 rest h3 hcd hpc hall hshape
    obtain ⟨cs, hcs, -, -⟩ :=
      collectCorners_ok w0 (cornerCoords w0) (cornerCoords_length w0 hshape) (w0 :: rest) hall
    simp only [find_combined_wcs, findCore, hcs]
    rw [if_pos (Or.inr h3), if_pos h3]
    simp [hcd, hpc]
  · intro ext imgs maskExt s iw sc sigma bg wt sv h
    simp only [data_combine]
    rw [if_pos h]
  · intro ext imgs maskExt sc sigma bg wt sv e hfind
    simp [data_combine, dataCombineBody, hfind]

/-- Witness for C7: each failure mode exercised at a concrete input. -/
theorem spec_C7_wit :
    find_combined_wcs [] (some [[0, 0]]) =
      .error "Pixel_shift does not match the number of images or WCSs!" ∧
    find_combined_wcs [w1D] none =
      .error "Unsupport datacube! Check the dimentions of the datasets!" ∧
    (∃ e, find_combined_wcs [wA, w3] none = .error e) ∧
    find_combined_wcs [w3nost] none =
      .error "Cannot read the step size of the spectral dimension!" ∧
    data_combine trivialExt [] true (some [(0, 0)]) false true 3 true none none =
      .error "Pixel_shift does not match the number of images!" ∧
    data_combine trivialExt [] true none false true 3 true none none =
      .error "IndexError: list index out of range" :=
  ⟨spec_C7_thm.1 [] [[0, 0]] (by decide),
   spec_C7_thm.2.1 w1D [] (by decide),
   spec_C7_thm.2.2.1 wA [w3] w3 (by simp) (Or.inl (show wA.naxis = 2 from rfl)) (by decide),
   spec_C7_thm.2.2.2.1 w3nost [] rfl rfl rfl
     (by intro w hw; rw [List.mem_singleton] at hw; subst hw; rfl) rfl,
   spec_C7_thm.2.2.2.2.1 trivialExt [] true [(0, 0)] false true 3 true none none (by decide),
   spec_C7_thm.2.2.2.2.2 trivialExt [] true true 3 true none none
     "IndexError: list index out of range" rfl⟩

/-- `pixel_shifts` plays no role in `data_combine` once its length is
validated, when `ignore_wcs` is False. -/
lemma dc_ignores_shifts (ext : ExtLib) (imgs : List Exposure) (maskExt : Bool)
    (s : List (ℚ × ℚ)) (sc : Bool) (sigma : ℚ) (bg : Bool)
    (wt : Option (List ℚ)) (sv : Option Unit) (h : s.length = imgs.length) :
    data_combine ext imgs maskExt (some s) false sc sigma bg wt sv =
      data_combine ext imgs maskExt none false sc sigma bg wt sv := by
  simp only [data_combine]
  rw [if_neg (not_ne_iff.mpr h)]
  simp [dataCombineBody]

/-- `pixelOffsetBase` is one entry per exposure. -/
lemma pixelOffsetBase_length (imgs : List Exposure) :
    (pixelOffsetBase imgs).length = imgs.length := by
  cases imgs <;> simp [pixelOffsetBase]

/-- `read_eris_drifts` is one drift per archive name. -/
lemma read_eris_drifts_length (tbl : DriftTable) (arcs : List String) :
    (read_eris_drifts tbl arcs).1.length = arcs.length := by
  simp [read_eris_drifts]

/-- `compute_eris_offset` (with no drifts or a drift table) is one
shift per exposure. -/
lemma compute_eris_offset_inl_length (imgs : List Exposure) (df : Option DriftTable) :
    (compute_eris_offset imgs (df.map Sum.inl)).1.length = imgs.length := by
  cases df with
  | none => simp [compute_eris_offset, pixelOffsetBase_length]
  | some tbl =>
    simp [compute_eris_offset, pixelOffsetBase_length, read_eris_drifts_length]

/-- C4: with `ignore_wcs` at its default `False`, a validated
`pixel_shifts` argument is never applied: `data_combine` returns the
same result as the identical call with `pixel_shifts=None`; and
`combine_eris_ifu` (which calls in exactly this mode, feeding the
computed drifts as `pixel_shifts`) equals the shift-free call. -/
theorem spec_C4_thm :
    (∀ (ext : ExtLib) (imgs : List Exposure) (maskExt : Bool) (s : List (ℚ × ℚ))
       (sc : Bool) (sigma : ℚ) (bg : Bool) (wt : Option (List ℚ)) (sv : Option Unit),
      s.length = imgs.length →
      data_combine ext imgs maskExt (some s) false sc sigma bg wt sv =
        data_combine ext imgs maskExt none false sc sigma bg wt sv) ∧
    (∀ (ext : ExtLib) (imgs : List Exposure) (df : Option DriftTable) (out : Option Unit)
       (maskExt sc : Bool) (sigma : ℚ) (bg : Bool),
      combine_eris_ifu ext imgs df out maskExt sc sigma bg =
        data_combine ext imgs maskExt none false sc sigma bg
          (some (compute_weighting_eris imgs)) out) := by
  constructor
  · intro ext imgs maskExt s sc sigma bg wt sv h
    exact dc_ignores_shifts ext imgs maskExt s sc sigma bg wt sv h
  · intro ext imgs df out maskExt sc sigma bg
    unfold combine_eris_ifu
    exact dc_ignores_shifts ext imgs maskExt _ sc sigma bg _ out
      (compute_eris_offset_inl_length imgs df)

/-- A 2-D WCS on a single-pixel grid for the concrete exposure. -/
def wE : WCSfits := mkWcs 2 [0, 0] [0, 0] none none [1, 1]

/-- A concrete single-pixel 2-D exposure. -/
def expA : Exposure :=
  ⟨.d2 [[1]], .b2 [[false]], wE, 1, 0, 0, 1, 1, "a0"⟩

/-- Witness for C4 at a concrete exposure list and shift vector. -/
theorem spec_C4_wit :
    data_combine trivialExt [expA] true (some [(1, 0)]) false true 3 true none none =
      data_combine trivialExt [expA] true none false true 3 true none none ∧
    combine_eris_ifu trivialExt [expA] none none true true 3 true =
      data_combine trivialExt [expA] true none false true 3 true
        (some (compute_weighting_eris [expA])) none :=
  ⟨spec_C4_thm.1 trivialExt [expA] true [(1, 0)] true 3 true none none rfl,
   spec_C4_thm.2 trivialExt [expA] none none true true 3 true⟩

/-- C9 (code bug): on the no-save-path return branch `data_combine`
executes `return data_combined, error_combined` with `error_combined`
never assigned, so a successful combination with `savefile=None`
raises a `NameError` instead of returning the combined (data, error)
arrays; here evaluated on a concrete single-exposure input that
reaches that branch. -/
theorem spec_C9_thm :
    data_combine trivialExt [expA] true none false true 3 true none none =
      .error "NameError: name error_combined is not defined" := by
  obtain ⟨cs, hcs, -, -⟩ := collectCorners_ok wE (cornerCoords wE)
    (cornerCoords_length wE rfl) [wE]
    (by intro w hw; rw [List.mem_singleton] at hw; subst hw; rfl)
  have hfind : ∃ wc, find_combined_wcs [wE] none = .ok (wc, [wE]) := by
    simp only [find_combined_wcs, findCore, hcs]
    rw [if_pos (Or.inl (show wE.naxis = 2 from rfl)), if_neg (show ¬wE.naxis = 3 by decide)]
    exact ⟨_, rfl⟩
  obtain ⟨wc, hfind⟩ := hfind
  have hmap : [expA].map (fun e => e.wcs) = [wE] := by simp [expA]
  simp [data_combine, dataCombineBody, hmap, hfind]

/-- Rectangularity of a list of planes: every plane is `sy` rows of
`sx` entries. -/
def rectPlanes {α : Type} (sy sx : ℕ) (l : List (List (List α))) : Prop :=
  ∀ p ∈ l, p.length = sy ∧ ∀ r ∈ p, r.length = sx

/-- C5: for a 3-D exposure whose channel count differs from the target
grid's, the reconciliation truncates data and mask to the target count
when the cube is longer, and when shorter extends both to the target
count, the data padded with zeros and the mask padded with 0 ("good",
`False`), all with the spatial dimensions unchanged. -/
theorem spec_C5_thm (nchan : ℕ) (data : List (List (List ℚ)))
    (mask : List (List (List Bool))) (sy sx : ℕ)
    (hd : rectPlanes sy sx data) (hm : rectPlanes sy sx mask)
    (hlen : mask.length = data.length) (hpos : 0 < data.length) (hsy : 0 < sy)
    (hne : data.length ≠ nchan) :
    (reconcileChannels nchan data mask).1.length = nchan ∧
    (reconcileChannels nchan data mask).2.length = nchan ∧
    (∀ c : ℕ, c < min data.length nchan →
      ((reconcileChannels nchan data mask).1)[c]? = data[c]? ∧
      ((reconcileChannels nchan data mask).2)[c]? = mask[c]?) ∧
    (data.length < nchan → ∀ c : ℕ, data.length ≤ c → c < nchan →
      ((reconcileChannels nchan data mask).1)[c]? =
        some (List.replicate sy (List.replicate sx (0 : ℚ))) ∧
      ((reconcileChannels nchan data mask).2)[c]? =
        some (List.replicate sy (List.replicate sx false))) ∧
    rectPlanes sy sx (reconcileChannels nchan data mask).1 ∧
    rectPlanes sy sx (reconcileChannels nchan data mask).2 := by
  by_cases hle : nchan ≤ data.length
  · have hrc : reconcileChannels nchan data mask = (data.take nchan, mask.take nchan) := by
      simp [reconcileChannels, hle]
    rw [hrc]
    refine ⟨?_, ?_, ?_, ?_, ?_, ?_⟩
    · simp [Nat.min_eq_left hle]
    · simp [Nat.min_eq_left (hlen ▸ hle)]
    · intro c hc
      have hcn : c < nchan := lt_of_lt_of_le hc (min_le_right _ _)
      constructor <;> rw [List.getElem?_take, if_pos hcn]
    · intro hlt; omega
    · intro p hp; exact hd p ((List.take_sublist _ _).subset hp)
    · intro p hp; exact hm p ((List.take_sublist _ _).subset hp)
  · push_neg at hle
    have hsy' : (data.headD []).length = sy := by
      obtain ⟨p0, data', rfl⟩ := List.exists_cons_of_ne_nil (List.length_pos.mp hpos)
      exact (hd p0 (by simp)).1
    have hsx' : ((data.headD []).headD []).length = sx := by
      obtain ⟨p0, data', rfl⟩ := List.exists_cons_of_ne_nil (List.length_pos.mp hpos)
      obtain ⟨hpl, hrow⟩ := hd p0 (by simp)
      have hp0 : p0 ≠ [] := by
        intro hnil; rw [hnil] at hpl; simp at hpl; omega
      obtain ⟨r0, p0', rfl⟩ := List.exists_cons_of_ne_nil hp0
      exact hrow r0 (by simp)
    have hrc : reconcileChannels nchan data mask =
        (data ++ List.replicate (nchan - data.length)
            (List.replicate sy (List.replicate sx (0 : ℚ))),
         mask ++ List.replicate (nchan - data.length)
            (List.replicate sy (List.replicate sx false))) := by
      simp only [reconcileChannels]
      rw [if_neg (by omega), hsy', hsx']
    rw [hrc]
    refine ⟨?_, ?_, ?_, ?_, ?_, ?_⟩
    · simp; omega
    · simp; omega
    · intro c hc
      have hcd : c < data.length := lt_of_lt_of_le hc (min_le_left _ _)
      constructor <;> rw [List.getElem?_append, if_pos (by omega)]
    · intro _ c hge hlt
      constructor
      · rw [List.getElem?_append_right hge]
        simp [List.getElem?_replicate]
        omega
      · rw [List.getElem?_append_right (by omega : mask.length ≤ c), hlen]
        simp [List.getElem?_replicate]
        omega
    · intro p hp
      rcases List.mem_append.mp hp with h | h
      · exact hd p h
      · have := List.eq_of_mem_replicate h
        subst this
        exact ⟨List.length_replicate _ _,
          fun r hr => by rw [List.eq_of_mem_replicate hr]; exact List.length_replicate _ _⟩
    · intro p hp
      rcases List.mem_append.mp hp with h | h
      · exact hm p h
      · have := List.eq_of_mem_replicate h
        subst this
        exact ⟨List.length_replicate _ _,
          fun r hr => by rw [List.eq_of_mem_replicate hr]; exact List.length_replicate _ _⟩

/-- Witness for C5: a 1-channel 1×1 cube reconciled to 2 channels. -/
theorem spec_C5_wit :
    (reconcileChannels 2 [[[5]]] [[[true]]]).1.length = 2 ∧
    (reconcileChannels 2 [[[5]]] [[[true]]]).2.length = 2 ∧
    (∀ c : ℕ, c < min ([[[(5 : ℚ)]]] : List (List (List ℚ))).length 2 →
      ((reconcileChannels 2 [[[5]]] [[[true]]]).1)[c]? = ([[[(5 : ℚ)]]] : List (List (List ℚ)))[c]? ∧
      ((reconcileChannels 2 [[[5]]] [[[true]]]).2)[c]? = ([[[true]]] : List (List (List Bool)))[c]?) ∧
    (([[[(5 : ℚ)]]] : List (List (List ℚ))).length < 2 → ∀ c : ℕ,
      ([[[(5 : ℚ)]]] : List (List (List ℚ))).length ≤ c → c < 2 →
      ((reconcileChannels 2 [[[5]]] [[[true]]]).1)[c]? =
        some (List.replicate 1 (List.replicate 1 (0 : ℚ))) ∧
      ((reconcileChannels 2 [[[5]]] [[[true]]]).2)[c]? =
        some (List.replicate 1 (List.replicate 1 false))) ∧
    rectPlanes 1 1 (reconcileChannels 2 [[[5]]] [[[true]]]).1 ∧
    rectPlanes 1 1 (reconcileChannels 2 [[[5]]] [[[true]]]).2 :=
  spec_C5_thm 2 [[[5]]] [[[true]]] 1 1
    (by intro p hp; rw [List.mem_singleton] at hp; subst hp
        exact ⟨rfl, by intro r hr; rw [List.mem_singleton] at hr; subst hr; rfl⟩)
    (by intro p hp; rw [List.mem_singleton] at hp; subst hp
        exact ⟨rfl, by intro r hr; rw [List.mem_singleton] at hr; subst hr; rfl⟩)
    rfl (by decide) (by decide) (by decide)

/-- Membership in a `zipWith` comes from members of both lists. -/
lemma mem_zipWith {α β γ : Type} (f : α → β → γ) :
    ∀ (a : List α) (b : List β) (c : γ), c ∈ List.zipWith f a b →
    ∃ x ∈ a, ∃ y ∈ b, c = f x y := by
  intro a
  induction a with
  | nil => intro b c h; simp [List.zipWith] at h
  | cons x xs ih =>
    intro b c h
    cases b with
    | nil => simp [List.zipWith] at h
    | cons y ys =>
      simp only [List.zipWith, List.mem_cons] at h
      rcases h with h | h
      · exact ⟨x, by simp, y, by simp, h⟩
      · obtain ⟨x', hx, y', hy, he⟩ := ih ys c h
        exact ⟨x', by simp [hx], y', by simp [hy], he⟩

/-- Entries of an elementwise rank-2 combination. -/
lemma mem_flat_zw2 (f : ℚ → ℚ → ℚ) (a b : List (List ℚ)) (q : ℚ)
    (h : q ∈ (zw2 f a b).flatten) :
    ∃ x ∈ a.flatten, ∃ y ∈ b.flatten, q = f x y := by
  obtain ⟨row, hrow, hq⟩ := List.mem_flatten.mp h
  obtain ⟨ra, hra, rb, hrb, he⟩ := mem_zipWith (List.zipWith f) a b row hrow
  subst he
  obtain ⟨x, hx, y, hy, he⟩ := mem_zipWith f ra rb q hq
  exact ⟨x, List.mem_flatten.mpr ⟨ra, hra, hx⟩, y, List.mem_flatten.mpr ⟨rb, hrb, hy⟩, he⟩

/-- Entries of an elementwise rank-3 combination. -/
lemma mem_flat_zw3 (f : ℚ → ℚ → ℚ) (a b : List (List (List ℚ))) (q : ℚ)
    (h : q ∈ (zw3 f a b).flatten.flatten) :
    ∃ x ∈ a.flatten.flatten, ∃ y ∈ b.flatten.flatten, q = f x y := by
  obtain ⟨row, hrow, hq⟩ := List.mem_flatten.mp h
  obtain ⟨pl, hpl, hrow'⟩ := List.mem_flatten.mp hrow
  obtain ⟨pa, hpa, pb, hpb, he⟩ := mem_zipWith (zw2 f) a b pl hpl
  subst he
  have : q ∈ (zw2 f pa pb).flatten := List.mem_flatten.mpr ⟨row, hrow', hq⟩
  obtain ⟨x, hx, y, hy, he⟩ := mem_flat_zw2 f pa pb q this
  obtain ⟨ra, hra, hxr⟩ := List.mem_flatten.mp hx
  obtain ⟨rb, hrb, hyr⟩ := List.mem_flatten.mp hy
  refine ⟨x, ?_, y, ?_, he⟩
  · exact List.mem_flatten.mpr ⟨ra, List.mem_flatten.mpr ⟨pa, hpa, hra⟩, hxr⟩
  · exact List.mem_flatten.mpr ⟨rb, List.mem_flatten.mpr ⟨pb, hpb, hrb⟩, hyr⟩

/-- Entries of `NDA.zipQ`: either a combination of entries of both
operands, or (on a rank mismatch) an entry of the first. -/
lemma entries_zipQ (f : ℚ → ℚ → ℚ) (a b : NDA) (q : ℚ)
    (h : q ∈ (NDA.zipQ f a b).entries) :
    (∃ x ∈ a.entries, ∃ y ∈ b.entries, q = f x y) ∨ q ∈ a.entries := by
  cases a with
  | d2 a2 =>
    cases b with
    | d2 b2 => exact Or.inl (mem_flat_zw2 f a2 b2 q h)
    | d3 b3 => exact Or.inr h
  | d3 a3 =>
    cases b with
    | d2 b2 => exact Or.inr h
    | d3 b3 => exact Or.inl (mem_flat_zw3 f a3 b3 q h)

/-- Entries of `NDA.map` come from entries of the argument. -/
lemma entries_map (f : ℚ → ℚ) (a : NDA) (q : ℚ) (h : q ∈ (NDA.map f a).entries) :
    ∃ x ∈ a.entries, q = f x := by
  cases a with
  | d2 a2 =>
    obtain ⟨row, hrow, hq⟩ := List.mem_flatten.mp h
    obtain ⟨ra, hra, he⟩ := List.mem_map.mp hrow
    subst he
    obtain ⟨x, hx, he⟩ := List.mem_map.mp hq
    exact ⟨x, List.mem_flatten.mpr ⟨ra, hra, hx⟩, he.symm⟩
  | d3 a3 =>
    obtain ⟨row, hrow, hq⟩ := List.mem_flatten.mp h
    obtain ⟨pl, hpl, hrow'⟩ := List.mem_flatten.mp hrow
    obtain ⟨pa, hpa, he⟩ := List.mem_map.mp hpl
    subst he
    obtain ⟨ra, hra, he⟩ := List.mem_map.mp hrow'
    subst he
    obtain ⟨x, hx, he⟩ := List.mem_map.mp hq
    exact ⟨x, List.mem_flatten.mpr ⟨ra, List.mem_flatten.mpr ⟨pa, hpa, hra⟩, hx⟩, he.symm⟩

/-- Every entry of `np.full(shape, v)` is `v`. -/
lemma entries_mkFull (shape : List ℕ) (v : ℚ) (q : ℚ)
    (h : q ∈ (mkFull shape v).entries) : q = v := by
  rcases shape with _ | ⟨a, _ | ⟨b, _ | ⟨c, tail⟩⟩⟩ <;>
    simp only [mkFull, NDA.entries] at h
  · simp at h
  · simp at h
  · obtain ⟨row, hrow, hq⟩ := List.mem_flatten.mp h
    rw [List.eq_of_mem_replicate hrow] at hq
    exact List.eq_of_mem_replicate hq
  · cases tail with
    | nil =>
      simp only [mkFull, NDA.entries] at h
      obtain ⟨row, hrow, hq⟩ := List.mem_flatten.mp h
      obtain ⟨pl, hpl, hrow'⟩ := List.mem_flatten.mp hrow
      rw [List.eq_of_mem_replicate hpl] at hrow'
      rw [List.eq_of_mem_replicate hrow'] at hq
      exact List.eq_of_mem_replicate hq
    | cons d tail' =>
      simp only [mkFull, NDA.entries] at h
      simp at h

/-- The coverage invariant: adding `1 - m` for resampled-mask entries
`m ∈ [0,1]` keeps every coverage entry strictly positive. -/
lemma accum_cov_pos (ext : ExtLib) (maskExt sc : Bool) (sigma : ℚ) (bg : Bool)
    (shape : List ℕ) (wc : WCSfits) :
    ∀ (ts : List (WCSfits × Exposure × ℚ)) (init : NDA × NDA),
    (∀ q ∈ init.2.entries, 0 < q) →
    (∀ t ∈ ts, ∀ q ∈ (processExposure ext maskExt sc sigma bg shape wc t.1 t.2.1).2.entries,
      0 ≤ q ∧ q ≤ 1) →
    ∀ q ∈ (ts.foldl (accumStep ext maskExt sc sigma bg shape wc) init).2.entries, 0 < q := by
  intro ts
  induction ts with
  | nil => intro init hinit _ q hq; exact hinit q hq
  | cons t ts' ih =>
    intro init hinit hmask
    simp only [List.foldl_cons]
    apply ih
    · intro q hq
      simp only [accumStep] at hq
      rcases entries_zipQ _ _ _ q hq with ⟨x, hx, y, hy, he⟩ | hq'
      · obtain ⟨m, hmem, hym⟩ := entries_map _ _ y hy
        have hm := hmask t (by simp) m hmem
        have hx' := hinit x hx
        subst he; subst hym
        have : 0 ≤ 1 - m := by linarith [hm.2]
        linarith
      · exact hinit q hq'
    · intro t' ht' q hq
      exact hmask t' (by simp [ht']) q hq

/-- C6: the coverage array starts at the strictly positive epsilon
`1e-8` everywhere and each exposure adds `1 - resampled_mask`, so
whenever every resampled mask entry lies in `[0, 1]`, every entry of
the final coverage (the denominator of the elementwise division
`data_combined / coverage_combined`) is strictly positive — the
division never divides by zero. -/
theorem spec_C6_thm (ext : ExtLib) (maskExt sc : Bool) (sigma : ℚ) (bg : Bool)
    (shape : List ℕ) (wc : WCSfits) (ts : List (WCSfits × Exposure × ℚ))
    (h : ∀ t ∈ ts,
      ∀ q ∈ (processExposure ext maskExt sc sigma bg shape wc t.1 t.2.1).2.entries,
      0 ≤ q ∧ q ≤ 1) :
    ∀ q ∈ (accumulate ext maskExt sc sigma bg shape wc ts).2.entries, 0 < q := by
  apply accum_cov_pos ext maskExt sc sigma bg shape wc ts
  · intro q hq
    rw [entries_mkFull shape (1/100000000) q hq]
    norm_num
  · exact h

/-- The concrete single-exposure coverage of the C6 witness. -/
lemma spec_c6_cov_entries :
    (accumulate trivialExt true true 3 true [1, 1] wE [(wE, expA, 1)]).2.entries =
      [100000001 / 100000000] := by
  norm_num [accumulate, accumStep, processExposure, trivialExt, mkFull, NDA.add,
    NDA.zipQ, zw2, NDA.oneMinus, NDA.map, NDA.entries, List.replicate]

/-- Witness for C6 at the concrete single-exposure accumulation: the
single coverage entry, and its positivity through the theorem. -/
theorem spec_C6_wit :
    ((100000001 / 100000000 : ℚ) ∈
      (accumulate trivialExt true true 3 true [1, 1] wE [(wE, expA, 1)]).2.entries) ∧
    0 < (100000001 / 100000000 : ℚ) :=
  ⟨by rw [spec_c6_cov_entries]; simp,
   spec_C6_thm trivialExt true true 3 true [1, 1] wE [(wE, expA, 1)]
     (by intro t ht q hq
         rw [List.mem_singleton] at ht
         subst ht
         simp only [processExposure, trivialExt] at hq
         rw [entries_mkFull [1, 1] 0 q hq]
         norm_num)
     (100000001 / 100000000) (by rw [spec_c6_cov_entries]; simp)⟩

/-- `zipWith` at an index where both lists are defined. -/
lemma zipWith_getElem?_of {α β γ : Type} (f : α → β → γ) :
    ∀ (a : List α) (b : List β) (i : ℕ) (x : α) (y : β),
    a[i]? = some x → b[i]? = some y → (List.zipWith f a b)[i]? = some (f x y) := by
  intro a
  induction a with
  | nil => intro b i x y hx _; simp at hx
  | cons a0 as ih =>
    intro b i x y hx hy
    cases b with
    | nil => simp at hy
    | cons b0 bs =>
      cases i with
      | zero =>
        simp only [List.getElem?_cons_zero, Option.some_inj] at hx hy
        subst hx; subst hy
        simp [List.zipWith_cons_cons]
      | succ j =>
        simp only [List.getElem?_cons_succ] at hx hy
        rw [List.zipWith_cons_cons, List.getElem?_cons_succ]
        exact ih bs j x y hx hy

/-- C8 (amended): with no drift table `compute_eris_offset` returns,
per exposure `i`, `(reported_offset[i] - reported_offset[0])` divided
per axis by exposure i's own plate scale `|CD*3600|`, so entry 0 is
exactly `(0,0)`; with a drift table each exposure's looked-up drift is
ADDED to its base offset — entry 0 included, so entry 0 is `(0,0)` only
when exposure 0's drift vanishes; an archive identifier absent from
the table yields drift `(0,0)` together with a "Drifts not found!"
warning rather than an error. -/
theorem spec_C8_thm :
    (∀ (e0 : Exposure) (rest : List Exposure),
      ((compute_eris_offset (e0 :: rest) none).1)[0]? = some (0, 0) ∧
      (compute_eris_offset (e0 :: rest) none).2 = []) ∧
    (∀ (e0 : Exposure) (rest : List Exposure) (i : ℕ) (e : Exposure),
      (e0 :: rest)[i]? = some e →
      ((compute_eris_offset (e0 :: rest) none).1)[i]? =
        some ((e.raOff - e0.raOff) / |e.cd11 * 3600|,
              (e.decOff - e0.decOff) / |e.cd22 * 3600|)) ∧
    (∀ (imgs : List Exposure) (tbl : DriftTable) (i : ℕ) (b d : ℚ × ℚ),
      (pixelOffsetBase imgs)[i]? = some b →
      ((read_eris_drifts tbl (imgs.map (fun e => e.arcfile))).1)[i]? = some d →
      ((compute_eris_offset imgs (some (.inl tbl))).1)[i]? = some (b.1 + d.1, b.2 + d.2)) ∧
    (∀ (tbl : DriftTable) (arcs : List String) (i : ℕ) (a : String),
      arcs[i]? = some a → (∀ r ∈ tbl, r.1 ≠ a) →
      ((read_eris_drifts tbl arcs).1)[i]? = some (0, 0) ∧
      "Drifts not found!" ∈ (read_eris_drifts tbl arcs).2) := by
  refine ⟨?_, ?_, ?_, ?_⟩
  · intro e0 rest
    refine ⟨?_, rfl⟩
    simp [compute_eris_offset, pixelOffsetBase]
  · intro e0 rest i e he
    simp only [compute_eris_offset, pixelOffsetBase]
    rw [List.getElem?_map, he]
    rfl
  · intro imgs tbl i b d hb hd
    simp only [compute_eris_offset]
    exact zipWith_getElem?_of _ _ _ i b d hb hd
  · intro tbl arcs i a ha habs
    have hfil : tbl.filter (fun r => r.1 = a) = [] := by
      rw [List.filter_eq_nil_iff]
      intro r hr
      simp [habs r hr]
    constructor
    · simp only [read_eris_drifts]
      rw [List.getElem?_map, ha]
      simp [hfil]
    · simp only [read_eris_drifts]
      refine List.mem_map.mpr ⟨a, ?_, rfl⟩
      refine List.mem_filter.mpr ⟨List.getElem?_mem ha, ?_⟩
      simp [hfil]

/-- A concrete exposure with archive name `a0` and unit plate scale. -/
def expB0 : Exposure := ⟨.d2 [[0]], .b2 [[false]], wE, 1, 0, 0, 1/3600, 1/3600, "a0"⟩

/-- A concrete exposure with archive name `a1` and unit plate scale. -/
def expB1 : Exposure := ⟨.d2 [[0]], .b2 [[false]], wE, 1, 0, 0, 1/3600, 1/3600, "a1"⟩

/-- A drift table holding only exposure `a0`, with a one-pixel x
drift. -/
def driftsT : DriftTable := [("a0", 33, 32)]

/-- Witness for C8 at the concrete exposures and drift table. -/
theorem spec_C8_wit :
    (((compute_eris_offset (expB0 :: [expB1]) none).1)[0]? = some (0, 0) ∧
      (compute_eris_offset (expB0 :: [expB1]) none).2 = []) ∧
    ((compute_eris_offset (expB0 :: [expB1]) none).1)[1]? =
      some ((expB1.raOff - expB0.raOff) / |expB1.cd11 * 3600|,
            (expB1.decOff - expB0.decOff) / |expB1.cd22 * 3600|) ∧
    ((compute_eris_offset [expB0, expB1] (some (.inl driftsT))).1)[1]? =
      some (((0 : ℚ), (0 : ℚ)).1 + ((0 : ℚ), (0 : ℚ)).1,
            ((0 : ℚ), (0 : ℚ)).2 + ((0 : ℚ), (0 : ℚ)).2) ∧
    (((read_eris_drifts driftsT ["a0", "a1"]).1)[1]? = some (0, 0) ∧
      "Drifts not found!" ∈ (read_eris_drifts driftsT ["a0", "a1"]).2) :=
  ⟨spec_C8_thm.1 expB0 [expB1],
   spec_C8_thm.2.1 expB0 [expB1] 1 expB1 rfl,
   spec_C8_thm.2.2.1 [expB0, expB1] driftsT 1 (0, 0) (0, 0)
     (by norm_num [pixelOffsetBase, expB0, expB1])
     (by
       have hf1 : driftsT.filter (fun r => r.1 = "a1") = [] := by
         rw [List.filter_eq_nil_iff]
         intro r hr
         simp only [driftsT, List.mem_singleton] at hr
         subst hr
         decide
       simp [read_eris_drifts, expB0, expB1, hf1]),
   spec_C8_thm.2.2.2 driftsT ["a0", "a1"] 1 "a1" rfl
     (by intro r hr; simp only [driftsT, List.mem_singleton] at hr; subst hr; decide)⟩

/-- C8 counterexample to the claim as stated: with a drift table that
records a one-pixel drift for exposure 0, the returned entry 0 is
`(1, 0)`, not `(0, 0)` — the drift is added to the reference exposure
as well. -/
theorem spec_C8_cex :
    ((compute_eris_offset [expB0, expB1] (some (.inl driftsT))).1)[0]? = some (1, 0) ∧
    ((1 : ℚ), (0 : ℚ)) ≠ ((0 : ℚ), (0 : ℚ)) := by
  constructor
  · have hbase : pixelOffsetBase [expB0, expB1] = [(0, 0), (0, 0)] := by
      norm_num [pixelOffsetBase, expB0, expB1]
    have harcs : [expB0, expB1].map (fun e => e.arcfile) = ["a0", "a1"] := by
      simp [expB0, expB1]
    have hf0 : driftsT.filter (fun r => r.1 = "a0") = [("a0", 33, 32)] := by
      simp [driftsT]
    have hf1 : driftsT.filter (fun r => r.1 = "a1") = [] := by
      rw [List.filter_eq_nil_iff]
      intro r hr
      simp only [driftsT, List.mem_singleton] at hr
      subst hr
      decide
    have hdr : (read_eris_drifts driftsT ["a0", "a1"]).1 = [(1, 0), (0, 0)] := by
      simp only [read_eris_drifts, List.map_cons, List.map_nil, hf0, hf1]
      norm_num
    simp only [compute_eris_offset, harcs, hdr, hbase]
    norm_num
  · norm_num

/-- `allPositions` enumerates exactly the in-bounds index vectors. -/
lemma mem_allPositions : ∀ (shape p : List ℕ),
    p ∈ allPositions shape ↔ inBounds shape p = true := by
  intro shape
  induction shape with
  | nil =>
    intro p
    cases p with
    | nil => simp [allPositions, inBounds]
    | cons a as => simp [allPositions, inBounds]
  | cons d ds ih =>
    intro p
    cases p with
    | nil =>
      simp only [allPositions, List.mem_flatMap, List.mem_map, inBounds]
      constructor
      · rintro ⟨i, _, q, _, he⟩; cases he
      · intro h; cases h
    | cons a as =>
      simp only [allPositions, List.mem_flatMap, List.mem_map, List.mem_range, inBounds,
        Bool.and_eq_true, decide_eq_true_eq]
      constructor
      · rintro ⟨i, hi, q, hq, he⟩
        injection he with h1 h2
        subst h1; subst h2
        exact ⟨hi, (ih q).mp hq⟩
      · rintro ⟨ha, hb⟩
        exact ⟨a, ha, as, (ih as).mpr hb, rfl⟩

/-- In-bounds vectors have the shape's length. -/
lemma inBounds_length : ∀ (shape p : List ℕ), inBounds shape p = true →
    p.length = shape.length := by
  intro shape
  induction shape with
  | nil => intro p h; cases p with
    | nil => rfl
    | cons a as => cases h
  | cons d ds ih =>
    intro p h
    cases p with
    | nil => cases h
    | cons a as =>
      simp only [inBounds, Bool.and_eq_true] at h
      simp [ih as h.2]

/-- The number of positions is the product of the dimensions. -/
lemma length_allPositions : ∀ shape : List ℕ,
    (allPositions shape).length = shape.prod := by
  intro shape
  induction shape with
  | nil => rfl
  | cons d ds ih =>
    simp only [allPositions, List.length_flatMap, List.prod_cons]
    have : (List.length ∘ fun i : ℕ => (allPositions ds).map (i :: ·)) =
        fun _ : ℕ => ds.prod := by
      funext i
      simp [ih]
    rw [this, List.map_const', List.sum_replicate, List.length_range, smul_eq_mul]

/-- A position in bounds forces every dimension to be positive. -/
lemma dims_pos : ∀ (shape p : List ℕ), inBounds shape p = true →
    ∀ d ∈ shape, 0 < d := by
  intro shape
  induction shape with
  | nil => intro p _ d hd; cases hd
  | cons d0 ds ih =>
    intro p h d hd
    cases p with
    | nil => cases h
    | cons a as =>
      simp only [inBounds, Bool.and_eq_true, decide_eq_true_eq] at h
      rcases List.mem_cons.mp hd with rfl | hd'
      · omega
      · exact ih as h.2 d hd'

/-- Per-axis distance `|a - b|` on naturals. -/
def d1 (a b : ℕ) : ℕ := max (a - b) (b - a)

/-- Chebyshev distance of two index vectors. -/
def cheb (p q : List ℕ) : ℕ := (List.zipWith d1 p q).foldr max 0

/-- One step of every coordinate toward the target. -/
def stepToward (p q : List ℕ) : List ℕ :=
  List.zipWith (fun a b => if a < b then a + 1 else if b < a then a - 1 else a) p q

/-- Distance zero and equal lengths force equality. -/
lemma cheb_eq_zero : ∀ (p q : List ℕ), p.length = q.length → cheb p q = 0 → p = q := by
  intro p
  induction p with
  | nil => intro q h _; cases q with
    | nil => rfl
    | cons b bs => cases h
  | cons a as ih =>
    intro q hl hc
    cases q with
    | nil => cases hl
    | cons b bs =>
      simp only [cheb, List.zipWith_cons_cons, List.foldr_cons] at hc
      have h1 : d1 a b = 0 := by omega
      have h2 : cheb as bs = 0 := by
        simp only [cheb]; omega
      have : a = b := by simp only [d1] at h1; omega
      rw [this, ih bs (by simpa using hl) h2]

/-- The step stays inside the array bounds. -/
lemma inBounds_stepToward : ∀ (shape p q : List ℕ), inBounds shape p = true →
    inBounds shape q = true → inBounds shape (stepToward p q) = true := by
  intro shape
  induction shape with
  | nil => intro p q hp _; cases p with
    | nil => cases q with
      | nil => exact hp
      | cons b bs => rfl
    | cons a as => cases hp
  | cons d ds ih =>
    intro p q hp hq
    cases p with
    | nil => cases hp
    | cons a as =>
      cases q with
      | nil => cases hq
      | cons b bs =>
        simp only [inBounds, Bool.and_eq_true, decide_eq_true_eq] at hp hq
        simp only [stepToward, List.zipWith_cons_cons, inBounds, Bool.and_eq_true,
          decide_eq_true_eq]
        refine ⟨?_, ih as bs hp.2 hq.2⟩
        have h1 := hp.1
        have h2 := hq.1
        split <;> try split
        all_goals omega

/-- The step is Chebyshev-adjacent to its origin. -/
lemma chebAdj_stepToward : ∀ (p q : List ℕ), p.length = q.length →
    chebAdj p (stepToward p q) = true := by
  intro p
  induction p with
  | nil => intro q h
           cases q with
           | nil => rfl
           | cons b bs => cases h
  | cons a as ih =>
    intro q hl
    cases q with
    | nil => cases hl
    | cons b bs =>
      have hrec := ih bs (by simpa using hl)
      simp only [chebAdj, Bool.and_eq_true, decide_eq_true_eq] at hrec ⊢
      simp only [stepToward, List.zipWith_cons_cons, List.length_cons, List.zip_cons_cons,
        List.all_cons, Bool.and_eq_true, decide_eq_true_eq]
      refine ⟨?_, ?_, ?_⟩
      · simp only [stepToward] at hrec
        omega
      · constructor <;> (split <;> try split) <;> omega
      · have := hrec.2
        simpa [stepToward] using this

/-- The step decreases the Chebyshev distance by one. -/
lemma cheb_stepToward : ∀ (p q : List ℕ), p.length = q.length →
    cheb (stepToward p q) q = cheb p q - 1 := by
  intro p
  induction p with
  | nil => intro q h
           cases q with
           | nil => rfl
           | cons b bs => cases h
  | cons a as ih =>
    intro q hl
    cases q with
    | nil => cases hl
    | cons b bs =>
      have hrec := ih bs (by simpa using hl)
      simp only [cheb, stepToward, List.zipWith_cons_cons, List.foldr_cons] at hrec ⊢
      have hax : d1 (if a < b then a + 1 else if b < a then a - 1 else a) b = d1 a b - 1 := by
        simp only [d1]
        split <;> try split
        all_goals omega
      rw [hax]
      omega

/-- The reflexive case of Chebyshev adjacency. -/
lemma chebAdj_refl : ∀ p : List ℕ, chebAdj p p = true := by
  have h : ∀ l : List ℕ,
      (List.zip l l).all (fun t => t.1 ≤ t.2 + 1 && t.2 ≤ t.1 + 1) = true := by
    intro l
    induction l with
    | nil => rfl
    | cons a as ih =>
      simp only [List.zip_cons_cons, List.all_cons, Bool.and_eq_true, decide_eq_true_eq]
      exact ⟨⟨by omega, by omega⟩, ih⟩
  intro p
  simp [chebAdj, h]

/-- A valid position is in its own neighbourhood. -/
lemma self_mem_nbhd (shape p : List ℕ) (hp : p ∈ allPositions shape) :
    p ∈ nbhd shape p :=
  List.mem_filter.mpr ⟨hp, chebAdj_refl p⟩

/-- Chebyshev distances inside the array are below the cell count. -/
lemma cheb_le_prod : ∀ (shape p q : List ℕ), inBounds shape p = true →
    inBounds shape q = true → cheb p q + 1 ≤ shape.prod := by
  intro shape
  induction shape with
  | nil => intro p q hp hq
           cases p with
           | nil => cases q with
             | nil => simp [cheb]
             | cons b bs => simp [inBounds] at hq
           | cons a as => cases hp
  | cons d ds ih =>
    intro p q hp hq
    cases p with
    | nil => cases hp
    | cons a as =>
      cases q with
      | nil => cases hq
      | cons b bs =>
        simp only [inBounds, Bool.and_eq_true, decide_eq_true_eq] at hp hq
        have hrec := ih as bs hp.2 hq.2
        have hd : 0 < d := by omega
        have hprod : 0 < ds.prod := by omega
        have h1 : d ≤ d * ds.prod := Nat.le_mul_of_pos_right d hprod
        have h2 : ds.prod ≤ d * ds.prod := Nat.le_mul_of_pos_left _ hd
        simp only [cheb, List.zipWith_cons_cons, List.foldr_cons, List.prod_cons] at hrec ⊢
        have hax : d1 a b < d := by simp only [d1]; omega
        omega

/-- Updating a cell with its neighbourhood nanmedian never erases a
filled cell: the neighbourhood contains the cell itself. -/
lemma updateCell_mono (st : FillState) (shape : List ℕ) (idx : List ℕ)
    (hidx : idx ∈ allPositions shape) (p : List ℕ) (hp : (st p).isSome) :
    ((updateCell st idx (nanmedianAt st shape idx)) p).isSome := by
  unfold updateCell
  by_cases he : p = idx
  · subst he
    rw [if_pos rfl]
    obtain ⟨v, hv⟩ := Option.isSome_iff_exists.mp hp
    have hmem : v ∈ (nbhd shape p).filterMap st :=
      List.mem_filterMap.mpr ⟨p, self_mem_nbhd shape p hidx, hv⟩
    unfold nanmedianAt
    rw [if_neg (by rw [List.isEmpty_iff]; exact List.ne_nil_of_mem hmem)]
    simp
  · rw [if_neg he]
    exact hp

/-- A fold of nanmedian updates over in-bounds indices never erases a
filled cell. -/
lemma foldl_update_mono (shape : List ℕ) :
    ∀ (l : List (List ℕ)) (st : FillState) (p : List ℕ),
    (∀ i ∈ l, i ∈ allPositions shape) → (st p).isSome →
    ((l.foldl (fun s idx => updateCell s idx (nanmedianAt s shape idx)) st) p).isSome := by
  intro l
  induction l with
  | nil => intro st p _ hp; exact hp
  | cons i rest ih =>
    intro st p hl hp
    simp only [List.foldl_cons]
    exact ih _ p (fun j hj => hl j (by simp [hj]))
      (updateCell_mono st shape i (hl i (by simp)) p hp)

/-- A fold of updates leaves cells outside the updated index list
unchanged. -/
lemma foldl_update_not_mem (shape : List ℕ) :
    ∀ (l : List (List ℕ)) (st : FillState) (p : List ℕ), p ∉ l →
    (l.foldl (fun s idx => updateCell s idx (nanmedianAt s shape idx)) st) p = st p := by
  intro l
  induction l with
  | nil => intro st p _; rfl
  | cons i rest ih =>
    intro st p hp
    simp only [List.foldl_cons]
    rw [ih (updateCell st i (nanmedianAt st shape i)) p
      (fun h => hp (List.mem_cons_of_mem _ h))]
    unfold updateCell
    rw [if_neg (fun h => hp (by rw [h]; exact List.mem_cons_self _ _))]

/-- Processing a masked cell whose neighbourhood already holds a value
fills it. -/
lemma foldl_update_fills (shape : List ℕ) :
    ∀ (l : List (List ℕ)) (st : FillState) (p : List ℕ),
    (∀ i ∈ l, i ∈ allPositions shape) → p ∈ l →
    (∃ q ∈ nbhd shape p, (st q).isSome) →
    ((l.foldl (fun s idx => updateCell s idx (nanmedianAt s shape idx)) st) p).isSome := by
  intro l
  induction l with
  | nil => intro st p _ hp _; cases hp
  | cons i rest ih =>
    intro st p hl hp hq
    obtain ⟨q, hqn, hqs⟩ := hq
    simp only [List.foldl_cons]
    by_cases he : i = p
    · subst he
      have hsome : ((updateCell st i (nanmedianAt st shape i)) i).isSome := by
        unfold updateCell
        rw [if_pos rfl]
        obtain ⟨v, hv⟩ := Option.isSome_iff_exists.mp hqs
        have hmem : v ∈ (nbhd shape i).filterMap st :=
          List.mem_filterMap.mpr ⟨q, hqn, hv⟩
        unfold nanmedianAt
        rw [if_neg (by rw [List.isEmpty_iff]; exact List.ne_nil_of_mem hmem)]
        simp
      exact foldl_update_mono shape rest _ i (fun j hj => hl j (by simp [hj])) hsome
    · have hp' : p ∈ rest := by
        rcases List.mem_cons.mp hp with h | h
        · exact absurd h.symm he
        · exact h
      apply ih _ p (fun j hj => hl j (by simp [hj])) hp'
      exact ⟨q, hqn, updateCell_mono st shape i (hl i (by simp)) q hqs⟩

/-- The masked index list holds only in-bounds positions. -/
lemma maskIdx_subset (mask : List ℕ → Bool) (shape : List ℕ) :
    ∀ i ∈ maskIdx mask shape, i ∈ allPositions shape := by
  intro i hi
  exact (List.mem_filter.mp hi).1

/-- Iterated passes never erase a filled cell. -/
lemma iter_mono (shape : List ℕ) (midx : List (List ℕ))
    (hsub : ∀ i ∈ midx, i ∈ allPositions shape) (p : List ℕ) :
    ∀ (k : ℕ) (st : FillState), (st p).isSome →
    (((onePass shape midx)^[k] st) p).isSome := by
  intro k
  induction k with
  | zero => intro st h; exact h
  | succ j ih =>
    intro st h
    rw [Function.iterate_succ_apply]
    exact ih _ (foldl_update_mono shape midx st p hsub h)

/-- After `k` passes every cell within Chebyshev distance `k` of an
unmasked cell is filled. -/
lemma iter_fills (image : List ℕ → ℚ) (mask : List ℕ → Bool) (shape : List ℕ)
    (q0 : List ℕ) (hq0 : q0 ∈ allPositions shape) (hq0m : mask q0 = false) :
    ∀ (k : ℕ) (p : List ℕ), p ∈ allPositions shape → cheb p q0 ≤ k →
    (((onePass shape (maskIdx mask shape))^[k] (initState image mask)) p).isSome := by
  intro k
  induction k with
  | zero =>
    intro p hp hc
    have hlen : p.length = q0.length := by
      rw [inBounds_length shape p ((mem_allPositions shape p).mp hp),
        inBounds_length shape q0 ((mem_allPositions shape q0).mp hq0)]
    have he : p = q0 := cheb_eq_zero p q0 hlen (Nat.le_zero.mp hc)
    subst he
    simp [initState, hq0m]
  | succ j ih =>
    intro p hp hc
    by_cases hcj : cheb p q0 ≤ j
    · rw [Function.iterate_succ_apply']
      unfold onePass
      exact foldl_update_mono shape _ _ p (maskIdx_subset mask shape) (ih p hp hcj)
    · have hlen : p.length = q0.length := by
        rw [inBounds_length shape p ((mem_allPositions shape p).mp hp),
          inBounds_length shape q0 ((mem_allPositions shape q0).mp hq0)]
      have hstep_in : stepToward p q0 ∈ allPositions shape :=
        (mem_allPositions shape _).mpr (inBounds_stepToward shape p q0
          ((mem_allPositions shape p).mp hp) ((mem_allPositions shape q0).mp hq0))
      have hstep_nbhd : stepToward p q0 ∈ nbhd shape p :=
        List.mem_filter.mpr ⟨hstep_in, chebAdj_stepToward p q0 hlen⟩
      have hstep_cheb : cheb (stepToward p q0) q0 ≤ j := by
        rw [cheb_stepToward p q0 hlen]
        omega
      have hstep_some := ih (stepToward p q0) hstep_in hstep_cheb
      rw [Function.iterate_succ_apply']
      by_cases hm : mask p = true
      · have hpmem : p ∈ maskIdx mask shape := List.mem_filter.mpr ⟨hp, hm⟩
        unfold onePass
        exact foldl_update_fills shape _ _ p (maskIdx_subset mask shape) hpmem
          ⟨stepToward p q0, hstep_nbhd, hstep_some⟩
      · have hmf : mask p = false := by
          revert hm
          cases mask p <;> simp
        have h0 : ((initState image mask) p).isSome := by
          simp [initState, hmf]
        unfold onePass
        exact foldl_update_mono shape _ _ p (maskIdx_subset mask shape)
          (iter_mono shape _ (maskIdx_subset mask shape) p j _ h0)

/-- If some iterate of the pass fills the array within the fuel, the
loop returns a filled iterate. -/
lemma fillLoop_reaches (shape : List ℕ) (midx : List (List ℕ)) :
    ∀ (f k : ℕ) (st : FillState), k ≤ f →
    allFilled shape ((onePass shape midx)^[k] st) = true →
    ∃ j, fillLoop shape midx f st = some ((onePass shape midx)^[j] st) ∧
      allFilled shape ((onePass shape midx)^[j] st) = true := by
  intro f
  induction f with
  | zero =>
    intro k st hk hfill
    have hz : k = 0 := Nat.le_zero.mp hk
    subst hz
    simp only [Function.iterate_zero_apply] at hfill
    exact ⟨0, by simp [fillLoop, hfill], by simpa using hfill⟩
  | succ f' ih =>
    intro k st hk hfill
    by_cases h0 : allFilled shape st = true
    · exact ⟨0, by simp [fillLoop, h0], by simpa using h0⟩
    · cases k with
      | zero =>
        simp only [Function.iterate_zero_apply] at hfill
        exact absurd hfill h0
      | succ k' =>
        rw [Function.iterate_succ_apply] at hfill
        obtain ⟨j, hj, hfj⟩ := ih k' (onePass shape midx st) (by omega) hfill
        refine ⟨j + 1, ?_, ?_⟩
        · simp only [fillLoop, h0, if_false]
          rw [Function.iterate_succ_apply]
          exact hj
        · rw [Function.iterate_succ_apply]
          exact hfj

/-- Unmasked cells are never touched by any pass. -/
lemma iter_unmasked (image : List ℕ → ℚ) (mask : List ℕ → Bool) (shape : List ℕ)
    (p : List ℕ) (hm : mask p = false) :
    ∀ j : ℕ, ((onePass shape (maskIdx mask shape))^[j] (initState image mask)) p =
      some (image p) := by
  intro j
  induction j with
  | zero => simp [initState, hm]
  | succ j' ih =>
    rw [Function.iterate_succ_apply']
    unfold onePass
    rw [foldl_update_not_mem shape _ _ p ?hnm]
    · exact ih
    case hnm =>
      intro hmem
      have := (List.mem_filter.mp hmem).2
      rw [hm] at this
      cases this

/-- C10: whenever at least one cell of the array is unmasked,
`fill_mask` terminates (the loop's fuel is never exhausted) and
returns a state reached by finitely many full passes of the
neighbourhood-median fill in which no unresolved (NaN) cell remains;
unmasked cells still hold the original data — the inputs are read
only. -/
theorem spec_C10_thm (image : List ℕ → ℚ) (mask : List ℕ → Bool) (shape : List ℕ)
    (h : ∃ p ∈ allPositions shape, mask p = false) :
    ∃ st, fill_mask image mask shape = some st ∧
      (∃ j, st = (onePass shape (maskIdx mask shape))^[j] (initState image mask)) ∧
      (∀ p ∈ allPositions shape, (st p).isSome) ∧
      (∀ p ∈ allPositions shape, mask p = false → st p = some (image p)) := by
  obtain ⟨q0, hq0, hq0m⟩ := h
  have hfillF : allFilled shape ((onePass shape (maskIdx mask shape))^[
      (allPositions shape).length] (initState image mask)) = true := by
    unfold allFilled
    rw [List.all_eq_true]
    intro p hp
    apply iter_fills image mask shape q0 hq0 hq0m _ p hp
    have h1 := cheb_le_prod shape p q0 ((mem_allPositions shape p).mp hp)
      ((mem_allPositions shape q0).mp hq0)
    rw [length_allPositions]
    omega
  obtain ⟨j, hj, hfj⟩ := fillLoop_reaches shape (maskIdx mask shape)
    (allPositions shape).length (allPositions shape).length
    (initState image mask) le_rfl hfillF
  refine ⟨_, hj, ⟨j, rfl⟩, ?_, ?_⟩
  · intro p hp
    exact List.all_eq_true.mp hfj p hp
  · intro p _ hm
    exact iter_unmasked image mask shape p hm j

/-- The all-zero image for the C10 witness. -/
def img10 : List ℕ → ℚ := fun _ => 0

/-- The witness mask: only cell `[0]` of the length-2 array is
masked. -/
def msk10 : List ℕ → Bool := fun p => decide (p = [0])

/-- Witness for C10 on a 1-D length-2 array with one masked cell. -/
theorem spec_C10_wit :
    ∃ st, fill_mask img10 msk10 [2] = some st ∧
      (∃ j, st = (onePass [2] (maskIdx msk10 [2]))^[j] (initState img10 msk10)) ∧
      (∀ p ∈ allPositions [2], (st p).isSome) ∧
      (∀ p ∈ allPositions [2], msk10 p = false → st p = some (img10 p)) :=
  spec_C10_thm img10 msk10 [2] (by decide)
